import Mathlib

/-!
Verification of the ANTISEQUENCE read-processing library against its
natural-language specification.

The development shallowly embeds the relevant Rust sources:
* `src/expr/expr_node.rs` — the expression evaluator (revcomp, normalize,
  arithmetic, conversions, typed errors);
* `src/graph/ops/match_any_op.rs` — the pattern-match verification loop,
  the `Exact` verifier and the Hamming verifiers;
* `src/seed_search.rs` — the `SmallSearcher` SIMD seed filter, the
  `GeneralSearcher` rolling-hash filter, its fingerprint `Filter` and
  `HashToPatternIdx::batch_lookup`.

Machine integers are modelled as `Nat`/`Int` with explicit two's-complement
wrapping (`% 2 ^ 64`) where the Rust release-mode semantics wraps, and an
explicit `panic` outcome where the Rust code panics (integer division by
zero, failing byte-to-number parses).  Byte strings are `List Nat` whose
elements are byte values.
-/

namespace Antiseq

/-! ### Byte-string values and errors

`EvalData`/`Data` are from `src/expr/expr_node.rs` and the `Read` module.
The `Float` variant (IEEE-754 double) is outside the shallow embedding and
none of the claims under verification mentions floats, so the modelled
value space is `{Bool, Int, Bytes}`.  `Data` owns its bytes and `EvalData`
may borrow them; ownership does not affect values, so one type models both.
-/

inductive Data where
  | bool (b : Bool)
  | int (i : Int)
  | bytes (bs : List Nat)
  deriving DecidableEq, Repr

/-- `NameError::Type(expected, offenders)` from `src/errors.rs` (the errors
module itself is not under `src/`; the constructor shape is taken from its
uses in `src/expr/expr_node.rs`: a static string naming the expected operand
shape and the list of offending operand values). -/
inductive NameError where
  | type (expected : String) (offenders : List Data)
  deriving DecidableEq, Repr

/-- Outcome of evaluating an expression: a value, a typed error, or a Rust
panic (division by zero, failing `parse::<isize>()`/`from_utf8` unwraps). -/
inductive EvalResult where
  | ok (d : Data)
  | err (e : NameError)
  | panic
  deriving DecidableEq, Repr

/-- Two's-complement wrap of an `isize` arithmetic result
(Rust release-mode `+`/`-`/`*` semantics). -/
def wrap64 (v : Int) : Int := (v + 2 ^ 63) % 2 ^ 64 - 2 ^ 63

/-- Rust `as usize` applied to an (already wrapped) `isize` value:
reinterpret the low 64 bits. -/
def usizeCast (v : Int) : Nat := (v % 2 ^ 64).toNat

/-- Number of binary digits of `n`; equals `usize::BITS - n.leading_zeros()`
for `n < 2 ^ 64`.  Written with an explicit fuel argument (the fuel only
needs to exceed the bit count, and `n` itself always does) so that the
kernel can evaluate it. -/
def bitLenGo : Nat → Nat → Nat
  | _, 0 => 0
  | m, fuel + 1 => if m = 0 then 0 else bitLenGo (m / 2) fuel + 1

def bitLen (n : Nat) : Nat := bitLenGo n n

/-- `log4_roundup` from `src/expr/expr_node.rs:42`:
`((usize::BITS - n.leading_zeros()) as f64 / 2.0).ceil() as usize`.
The numerator is the bit length of `n` (at most 64), for which the `f64`
division and ceiling are exact, so this is `⌈bitLen n / 2⌉`. -/
def log4_roundup (n : Nat) : Nat := (bitLen n + 1) / 2

/-- `NUC_MAP` from `src/expr/expr_node.rs:12`: `[b'A', b'C', b'T', b'G']`. -/
def NUC_MAP : List Nat := [65, 67, 84, 71]

/-- `UNKNOWN_QUAL` from `src/expr/expr_node.rs:9`: `b'I'`. -/
def UNKNOWN_QUAL : Nat := 73

/-- The base-4 digit loop of `NormalizeNode::eval`
(`src/expr/expr_node.rs:407-412`): `extraLen` iterations, each emitting
`NUC_MAP[length_diff & 3]` and shifting `length_diff` right by two bits. -/
def nucDigits : Nat → Nat → List Nat
  | 0, _ => []
  | i + 1, d => NUC_MAP.getD (d % 4) 0 :: nucDigits i (d / 4)

/-- DNA complement table of `RevCompNode::eval` (`src/expr/expr_node.rs:523`):
`A↔T`, `C↔G`, identity on every other byte. -/
def compDna (c : Nat) : Nat :=
  if c = 65 then 84 else if c = 84 then 65
  else if c = 71 then 67 else if c = 67 then 71 else c

/-- RNA complement table of `RevCompNode::eval` (`src/expr/expr_node.rs:513`):
`A→U`, `U→A`, `G↔C`, identity on every other byte. -/
def compRna (c : Nat) : Nat :=
  if c = 65 then 85 else if c = 85 then 65
  else if c = 71 then 67 else if c = 67 then 71 else c

/-- `str::parse::<isize>` on a byte string, as used by `IntNode::eval`
(`src/expr/expr_node.rs:610`): an optional sign followed by at least one
ASCII digit, with the value in `isize` range; any other input (including
non-UTF-8 bytes) makes the surrounding `unwrap`/`panic!` fire, modelled by
`none`. -/
def parseIsize (bs : List Nat) : Option Int :=
  let digitsToNat : List Nat → Option Nat := fun l =>
    if l = [] then none
    else if l.all fun c => 48 ≤ c ∧ c ≤ 57 then
      some (l.foldl (fun acc c => acc * 10 + (c - 48)) 0)
    else none
  match bs with
  | 43 :: rest =>
    (digitsToNat rest).bind fun n =>
      if (n : Int) ≤ 2 ^ 63 - 1 then some (n : Int) else none
  | 45 :: rest =>
    (digitsToNat rest).bind fun n =>
      if (n : Int) ≤ 2 ^ 63 then some (-(n : Int)) else none
  | _ =>
    (digitsToNat bs).bind fun n =>
      if (n : Int) ≤ 2 ^ 63 - 1 then some (n : Int) else none

/-! ### Expression trees

One constructor per `ExprNode` implementor of `src/expr/expr_node.rs`.
Leaves are literal `Data` (the `impl ExprNode for Data`).  Omitted
implementors, with why the omission hides nothing: `FloatNode` is a
byte-to-number conversion with the same `unwrap`/`panic!` shape as
`IntNode`, but its value space is IEEE-754 doubles, which are outside the
shallow embedding (the amended C9's exclusion of byte-to-number conversion
covers it); the `Label`/`Attr`/`label_exists`/`attr_exists` leaves resolve
against a read and their bodies consist only of `?`-propagated `NameError`s
and a `vec![UNKNOWN_QUAL; len]` allocation — no panicking operation — so
the claims quantify over the byte strings they would produce.  A
`Bound<Expr>` pair is encoded as two bound kinds plus two child
expressions (the child is ignored for an unbounded end). -/

inductive BoundKind where
  | included
  | excluded
  | unbounded
  deriving DecidableEq, Repr

/-- The `End` enum used by `PadNode` (`Left` pads in front, `Right`
behind). -/
inductive End where
  | left
  | right
  deriving DecidableEq, Repr

inductive Expr where
  | lit (d : Data)
  | andE (l r : Expr)
  | orE (l r : Expr)
  | xorE (l r : Expr)
  | notE (e : Expr)
  | add (l r : Expr)
  | sub (l r : Expr)
  | mul (l r : Expr)
  | div (l r : Expr)
  | gt (l r : Expr)
  | lt (l r : Expr)
  | ge (l r : Expr)
  | le (l r : Expr)
  | eq (l r : Expr)
  | len (e : Expr)
  | rev (e : Expr)
  | revcomp (isRna : Bool) (e : Expr)
  | intC (e : Expr)
  | bytesC (e : Expr)
  | concat (l r : Expr)
  | concatAll (es : List Expr)
  | repeatE (s times : Expr)
  | padE (s pad_char num : Expr) (endSide : End)
  | slice (s : Expr) (loK hiK : BoundKind) (lo hi : Expr)
  | inBounds (num : Expr) (loK hiK : BoundKind) (lo hi : Expr)
  | normalize (s : Expr) (loK hiK : BoundKind) (lo hi : Expr)

/-- `true` exactly on `Bound::Excluded`, for the `start_add1`/`end_sub1`
flags. -/
def bkExcl : BoundKind → Bool
  | .excluded => true
  | _ => false

/-- Decimal digits of a natural number in ASCII (the fuel argument only
needs to exceed the digit count, and `n + 1` always does). -/
def natDecGo : Nat → Nat → List Nat
  | _, 0 => []
  | n, fuel + 1 => if n < 10 then [48 + n] else natDecGo (n / 10) fuel ++ [48 + n % 10]

def natDec (n : Nat) : List Nat := natDecGo n (n + 1)

/-- `isize::to_string().into_bytes()` as used by `BytesNode::eval`. -/
def intDec (i : Int) : List Nat :=
  if i < 0 then 45 :: natDec (-i).toNat else natDec i.toNat

/-- The body of `SliceNode::eval` (`src/expr/expr_node.rs:814-841`) once
the byte string and both bound values are known: normalize a negative end
against the length, apply the exclusive-bound adjustments, check the
range, and slice.  `isize` arithmetic wraps (release mode). -/
def sliceCore (b : List Nat) (startD endD : Data) (startAdd1 endSub1 : Bool) : EvalResult :=
  match startD, endD with
  | .int s0, .int e0 =>
    let len : Int := b.length
    let e1 := if e0 < 0 then wrap64 (len + e0) else e0
    let e2 := if endSub1 then wrap64 (e1 - 1) else e1
    let s1 := if startAdd1 then wrap64 (s0 + 1) else s0
    if s1 ≥ 0 ∧ s1 ≤ len ∧ e2 ≤ len ∧ e2 ≥ 0 ∧ s1 ≤ e2 then
      .ok (.bytes ((b.drop s1.toNat).take (e2.toNat - s1.toNat)))
    else
      .err (.type "indices in bound" [.int s1, .int e2])
  | a, b' => .err (.type "all int" [a, b'])

/-- The value built by `[u8]::repeat(n)` (used by `RepeatNode` and
`PadNode`).  Rust's `repeat` first computes
`len().checked_mul(n).expect("capacity overflow")`, so the call panics
exactly when `|s| * n` exceeds `usize::MAX`; the callers below model that
check before using this builder. -/
def repeatBytesList (s : List Nat) (n : Nat) : List Nat :=
  List.flatten (List.replicate n s)

/-- The core of `NormalizeNode::eval` (`src/expr/expr_node.rs:394-418`) once
the byte string and both (already adjusted) integer bounds are known. -/
def normalizeCore (s : List Nat) (start e : Int) : EvalResult :=
  if e < (s.length : Int) then
    .err (.type "range end to exceed length of interval" [.int e])
  else
    let lengthDiff : Nat := usizeCast e - s.length
    let extraLen : Nat := log4_roundup (usizeCast (wrap64 (e - start + 1)))
    .ok (.bytes (s ++ List.replicate lengthDiff 65 ++ nucDigits extraLen lengthDiff))

mutual

/-- `Expr::eval` (`src/expr/expr_node.rs`).  `useQual` is the quality-mode
flag: a literal byte string evaluates to a same-length run of
`UNKNOWN_QUAL` in quality mode (the `impl ExprNode for Data` at
`src/expr/expr_node.rs:1042`). -/
def eval : Expr → Bool → EvalResult
  | .lit d, useQual =>
    match d with
    | .bytes bs => if useQual then .ok (.bytes (List.replicate bs.length UNKNOWN_QUAL)) else .ok (.bytes bs)
    | d => .ok d
  | .andE l r, q =>
    match eval l q with
    | .panic => .panic
    | .err e => .err e
    | .ok dl =>
      match eval r q with
      | .panic => .panic
      | .err e => .err e
      | .ok dr =>
        match dl, dr with
        | .bool a, .bool b => .ok (.bool (a && b))
        | a, b => .err (.type "bool" [a, b])
  | .orE l r, q =>
    match eval l q with
    | .panic => .panic
    | .err e => .err e
    | .ok dl =>
      match eval r q with
      | .panic => .panic
      | .err e => .err e
      | .ok dr =>
        match dl, dr with
        | .bool a, .bool b => .ok (.bool (a || b))
        | a, b => .err (.type "bool" [a, b])
  | .xorE l r, q =>
    match eval l q with
    | .panic => .panic
    | .err e => .err e
    | .ok dl =>
      match eval r q with
      | .panic => .panic
      | .err e => .err e
      | .ok dr =>
        match dl, dr with
        | .bool a, .bool b => .ok (.bool (xor a b))
        | a, b => .err (.type "bool" [a, b])
  | .notE e, q =>
    match eval e q with
    | .panic => .panic
    | .err er => .err er
    | .ok d =>
      match d with
      | .bool b => .ok (.bool (!b))
      | d => .err (.type "bool" [d])
  | .add l r, q =>
    match eval l q with
    | .panic => .panic
    | .err e => .err e
    | .ok dl =>
      match eval r q with
      | .panic => .panic
      | .err e => .err e
      | .ok dr =>
        match dl, dr with
        | .int a, .int b => .ok (.int (wrap64 (a + b)))
        | a, b => .err (.type "both int or both float" [a, b])
  | .sub l r, q =>
    match eval l q with
    | .panic => .panic
    | .err e => .err e
    | .ok dl =>
      match eval r q with
      | .panic => .panic
      | .err e => .err e
      | .ok dr =>
        match dl, dr with
        | .int a, .int b => .ok (.int (wrap64 (a - b)))
        | a, b => .err (.type "both int or both float" [a, b])
  | .mul l r, q =>
    match eval l q with
    | .panic => .panic
    | .err e => .err e
    | .ok dl =>
      match eval r q with
      | .panic => .panic
      | .err e => .err e
      | .ok dr =>
        match dl, dr with
        | .int a, .int b => .ok (.int (wrap64 (a * b)))
        | a, b => .err (.type "both int or both float" [a, b])
  | .div l r, q =>
    match eval l q with
    | .panic => .panic
    | .err e => .err e
    | .ok dl =>
      match eval r q with
      | .panic => .panic
      | .err e => .err e
      | .ok dr =>
        match dl, dr with
        | .int a, .int b =>
          if b = 0 ∨ (a = -(2 ^ 63) ∧ b = -1) then .panic
          else .ok (.int (Int.tdiv a b))
        | a, b => .err (.type "both int or both float" [a, b])
  | .gt l r, q =>
    match eval l q with
    | .panic => .panic
    | .err e => .err e
    | .ok dl =>
      match eval r q with
      | .panic => .panic
      | .err e => .err e
      | .ok dr =>
        match dl, dr with
        | .int a, .int b => .ok (.bool (decide (a > b)))
        | a, b => .err (.type "both int or both float" [a, b])
  | .lt l r, q =>
    match eval l q with
    | .panic => .panic
    | .err e => .err e
    | .ok dl =>
      match eval r q with
      | .panic => .panic
      | .err e => .err e
      | .ok dr =>
        match dl, dr with
        | .int a, .int b => .ok (.bool (decide (a < b)))
        | a, b => .err (.type "both int or both float" [a, b])
  | .ge l r, q =>
    match eval l q with
    | .panic => .panic
    | .err e => .err e
    | .ok dl =>
      match eval r q with
      | .panic => .panic
      | .err e => .err e
      | .ok dr =>
        match dl, dr with
        | .int a, .int b => .ok (.bool (decide (a ≥ b)))
        | a, b => .err (.type "both int or both float" [a, b])
  | .le l r, q =>
    match eval l q with
    | .panic => .panic
    | .err e => .err e
    | .ok dl =>
      match eval r q with
      | .panic => .panic
      | .err e => .err e
      | .ok dr =>
        match dl, dr with
        | .int a, .int b => .ok (.bool (decide (a ≤ b)))
        | a, b => .err (.type "both int or both float" [a, b])
  | .eq l r, q =>
    match eval l q with
    | .panic => .panic
    | .err e => .err e
    | .ok dl =>
      match eval r q with
      | .panic => .panic
      | .err e => .err e
      | .ok dr =>
        match dl, dr with
        | .int a, .int b => .ok (.bool (decide (a = b)))
        | .bool a, .bool b => .ok (.bool (decide (a = b)))
        | .bytes a, .bytes b => .ok (.bool (decide (a = b)))
        | a, b => .err (.type "both are the same type" [a, b])
  | .len e, q =>
    match eval e q with
    | .panic => .panic
    | .err er => .err er
    | .ok d =>
      match d with
      | .bytes bs => .ok (.int bs.length)
      | d => .err (.type "bytes" [d])
  | .rev e, q =>
    match eval e q with
    | .panic => .panic
    | .err er => .err er
    | .ok d =>
      match d with
      | .bytes bs => .ok (.bytes bs.reverse)
      | d => .err (.type "bytes" [d])
  | .revcomp isRna e, q =>
    match eval e q with
    | .panic => .panic
    | .err er => .err er
    | .ok d =>
      match d with
      | .bytes bs => .ok (.bytes (bs.map (if isRna then compRna else compDna)))
      | d => .err (.type "bytes" [d])
  | .intC e, q =>
    match eval e q with
    | .panic => .panic
    | .err er => .err er
    | .ok d =>
      match d with
      | .bool b => .ok (.int (if b then 1 else 0))
      | .int i => .ok (.int i)
      | .bytes bs =>
        match parseIsize bs with
        | some v => .ok (.int v)
        | none => .panic
  | .bytesC e, q =>
    match eval e q with
    | .panic => .panic
    | .err er => .err er
    | .ok d =>
      match d with
      | .bool b => .ok (.bytes (if b then [116, 114, 117, 101] else [102, 97, 108, 115, 101]))
      | .int i => .ok (.bytes (intDec i))
      | .bytes bs => .ok (.bytes bs)
  | .concat l r, q =>
    match eval l q with
    | .panic => .panic
    | .err e => .err e
    | .ok dl =>
      match eval r q with
      | .panic => .panic
      | .err e => .err e
      | .ok dr =>
        match dl, dr with
        | .bytes a, .bytes b => .ok (.bytes (a ++ b))
        | a, b => .err (.type "both bytes" [a, b])
  | .concatAll es, q => evalConcatAll es q []
  | .repeatE s times, q =>
    match eval s q with
    | .panic => .panic
    | .err e => .err e
    | .ok ds =>
      match eval times q with
      | .panic => .panic
      | .err e => .err e
      | .ok dt =>
        match ds, dt with
        | .bytes bs, .int t =>
          let n := usizeCast t
          if bs.length * n < 2 ^ 64 then .ok (.bytes (repeatBytesList bs n)) else .panic
        | a, b => .err (.type "bytes and int" [a, b])
  | .padE s pad_char num endSide, q =>
    match eval s q with
    | .panic => .panic
    | .err e => .err e
    | .ok ds =>
      match eval pad_char q with
      | .panic => .panic
      | .err e => .err e
      | .ok dpc =>
        match eval num q with
        | .panic => .panic
        | .err e => .err e
        | .ok dn =>
          match ds with
          | .bytes bs =>
            match dn with
            | .int n =>
              if (bs.length : Int) > n then
                .err (.type "usize longer than interval length" [.int n])
              else
                match dpc with
                | .bytes pcb =>
                  let r := n.toNat - bs.length
                  if pcb.length * r < 2 ^ 64 then
                    match endSide with
                    | .left => .ok (.bytes (repeatBytesList pcb r ++ bs))
                    | .right => .ok (.bytes (bs ++ repeatBytesList pcb r))
                  else .panic
                | d => .err (.type "bytes" [d])
            | d => .err (.type "int" [d])
          | d => .err (.type "bytes" [d])
  | .slice s loK hiK lo hi, q =>
    match eval s q with
    | .panic => .panic
    | .err er => .err er
    | .ok ds =>
      match ds with
      | .bytes b =>
        match (match loK with
               | .unbounded => EvalResult.ok (.int 0)
               | _ => eval lo q) with
        | .panic => .panic
        | .err er => .err er
        | .ok dlo =>
          match (match hiK with
                 | .unbounded => EvalResult.ok (.int (b.length : Int))
                 | _ => eval hi q) with
          | .panic => .panic
          | .err er => .err er
          | .ok dhi => sliceCore b dlo dhi (bkExcl loK) (bkExcl hiK)
      | d => .err (.type "interval" [d])
  | .inBounds num loK hiK lo hi, q =>
    match eval num q with
    | .panic => .panic
    | .err er => .err er
    | .ok dn =>
      match (match loK with
             | .unbounded => EvalResult.ok (.int (-(2 ^ 63)))
             | _ => eval lo q) with
      | .panic => .panic
      | .err er => .err er
      | .ok dlo =>
        match (match hiK with
               | .unbounded => EvalResult.ok (.int (2 ^ 63 - 1))
               | _ => eval hi q) with
        | .panic => .panic
        | .err er => .err er
        | .ok dhi =>
          match dn, dlo, dhi with
          | .int n, .int s0, .int e0 =>
            let s1 := if bkExcl loK then wrap64 (s0 + 1) else s0
            let e1 := if bkExcl hiK then wrap64 (e0 - 1) else e0
            .ok (.bool (decide (s1 ≤ n ∧ n ≤ e1)))
          | a, b, c => .err (.type "all int" [a, b, c])
  | .normalize s loK hiK lo hi, q =>
    match eval s q with
    | .panic => .panic
    | .err er => .err er
    | .ok ds =>
      match ds with
      | .bytes bs =>
        match loK with
        | .unbounded => .err (.type "inclusive or exclusive bounds" [.int (-(2 ^ 63))])
        | _ =>
          match eval lo q with
          | .panic => .panic
          | .err er => .err er
          | .ok dlo =>
            match hiK with
            | .unbounded => .err (.type "inclusive or exclusive bounds" [.int (2 ^ 63 - 1)])
            | _ =>
              match eval hi q with
              | .panic => .panic
              | .err er => .err er
              | .ok dhi =>
                match dlo, dhi with
                | .int a, .int b =>
                  let a := if loK = .excluded then wrap64 (a + 1) else a
                  let b := if hiK = .excluded then wrap64 (b - 1) else b
                  normalizeCore bs a b
                | a, b => .err (.type "both int" [a, b])
      | d => .err (.type "bytes" [d])

/-- The accumulation loop of `ConcatAllNode::eval`
(`src/expr/expr_node.rs:752-771`): evaluate each child in order, extend
the result vector with its bytes, and stop with a typed error on the first
non-bytes child. -/
def evalConcatAll : List Expr → Bool → List Nat → EvalResult
  | [], _, acc => .ok (.bytes acc)
  | e :: rest, q, acc =>
    match eval e q with
    | .panic => .panic
    | .err er => .err er
    | .ok d =>
      match d with
      | .bytes b => evalConcatAll rest q (acc ++ b)
      | d => .err (.type "bytes" [d])

end

/-! ### MatchAnyOp: verifiers and the verification loop

From `src/graph/ops/match_any_op.rs`.  The modelled `MatchType`s are the
in-repository verifiers that need no aligner: `Exact`, `ExactPrefix`,
`ExactSuffix`, `ExactSearch` (via substring search) and `Hamming`.  The
alignment-backed verifiers call the external `block_aligner` crate, which
is not part of this repository.  Fractional thresholds resolve to a count
through `t.get(pattern_len)`; the resolved count is the model's threshold.
`ExactSearch` is modelled on the `text_i = None` code path (the window
narrowing for seeded candidates restricts the searched slice only). -/

inductive MatchType where
  | exact
  | exactPre
  | exactSuf
  | exactSearch
  | hamming (threshold : Nat)
  deriving DecidableEq, Repr

/-- Mismatch count of `fn hamming` (`src/graph/ops/match_any_op.rs:422`):
the u64 SWAR loop ORs each differing byte down to one bit and pops the
count, i.e. it counts the positions at which the two equal-length strings
differ. -/
def mismatchCount (a b : List Nat) : Nat := ((a.zip b).filter fun p => p.1 ≠ p.2).length

/-- `fn hamming` (`src/graph/ops/match_any_op.rs:422-468`): `None` on a
length mismatch, otherwise the match count `n - res` gated by
`matches >= threshold`. -/
def hamming (a b : List Nat) (threshold : Nat) : Option Nat :=
  if a.length ≠ b.length then none
  else
    let matchCnt := a.length - mismatchCount a b
    if matchCnt ≥ threshold then some matchCnt else none

/-- `memmem::find`: index of the first exact occurrence of `p` in `text`. -/
def findSub (text p : List Nat) : Option Nat :=
  (List.range (text.length + 1 - p.length)).find? fun i => decide ((text.drop i).take p.length = p)

/-- The per-`MatchType` verifier arms of `MatchAnyOp::run`
(`src/graph/ops/match_any_op.rs:215-277`), producing
`(matches, cut_pos1, cut_pos2)`. -/
def verify : MatchType → List Nat → List Nat → Option (Nat × Nat × Nat)
  | .exact, text, p =>
    if text = p then some (p.length, p.length, 0) else none
  | .exactPre, text, p =>
    if p.length ≤ text.length ∧ text.take p.length = p then some (p.length, p.length, 0) else none
  | .exactSuf, text, p =>
    if p.length ≤ text.length ∧ text.drop (text.length - p.length) = p then
      some (p.length, text.length - p.length, 0)
    else none
  | .exactSearch, text, p =>
    (findSub text p).map fun i => (p.length, i, i + p.length)
  | .hamming t, text, p =>
    (hamming text p t).map fun m => (m, p.length, 0)

/-- The accumulator of the verification loop
(`src/graph/ops/match_any_op.rs:194-199`).  `maxPattern` models the
`Option` that holds the winning pattern's data (its index suffices here);
`maxPatternIdx` starts at the `usize::MAX` sentinel. -/
structure LoopState where
  maxMatches : Nat
  maxPattern : Option Nat
  maxPatternIdx : Nat
  maxCutPos1 : Nat
  maxCutPos2 : Nat
  multimatches : Bool
  deriving DecidableEq, Repr

def initState : LoopState :=
  { maxMatches := 0, maxPattern := none, maxPatternIdx := 2 ^ 64 - 1,
    maxCutPos1 := 0, maxCutPos2 := 0, multimatches := false }

/-- One iteration of the candidate loop
(`src/graph/ops/match_any_op.rs:201-338`): skip when
`max_matches > pattern_len`, verify, then update the best match or the
multimatch flag.  A candidate is a `(pattern_idx, pattern bytes)` pair. -/
def loopStep (mt : MatchType) (text : List Nat) (st : LoopState) (c : Nat × List Nat) :
    LoopState :=
  if st.maxMatches > c.2.length then st
  else
    match verify mt text c.2 with
    | none => st
    | some (m, c1, c2) =>
      if m > st.maxMatches then
        { maxMatches := m, maxPattern := some c.1, maxPatternIdx := c.1,
          maxCutPos1 := c1, maxCutPos2 := c2, multimatches := false }
      else if m = st.maxMatches ∧ c.1 ≠ st.maxPatternIdx then
        { st with multimatches := true }
      else st

def runLoop (mt : MatchType) (text : List Nat) (cands : List (Nat × List Nat)) : LoopState :=
  cands.foldl (loopStep mt text) initState

/-- The candidates that pass their verifier, with their match counts. -/
def passList (mt : MatchType) (text : List Nat) (cands : List (Nat × List Nat)) :
    List (Nat × Nat) :=
  cands.filterMap fun c => (verify mt text c.2).map fun r => (c.1, r.1)

def maxOf (l : List Nat) : Nat := l.foldr max 0

/-- Maximum matches-count over the candidates that pass their verifier. -/
def bestOf (mt : MatchType) (text : List Nat) (cands : List (Nat × List Nat)) : Nat :=
  maxOf ((passList mt text cands).map Prod.snd)

/-- Formalization of claim C5 at one instance: (1) whenever some candidate
passes its verifier, a match is written (`max_pattern` is `Some`) and it
achieves the maximum matches-count; (2) the multimatch flag is written
(true, together with a winning match) iff two distinct patterns achieve
that maximum. -/
def claimC5At (mt : MatchType) (text : List Nat) (cands : List (Nat × List Nat)) : Prop :=
  (passList mt text cands ≠ [] →
    (runLoop mt text cands).maxPattern ≠ none ∧
    ∀ i ∈ (runLoop mt text cands).maxPattern.toList,
      (i, bestOf mt text cands) ∈ passList mt text cands) ∧
  (((runLoop mt text cands).maxPattern.isSome = true ∧
      (runLoop mt text cands).multimatches = true) ↔
    ∃ p ∈ passList mt text cands, ∃ q ∈ passList mt text cands,
      p.1 ≠ q.1 ∧ p.2 = bestOf mt text cands ∧ q.2 = bestOf mt text cands)

instance (mt : MatchType) (text : List Nat) (cands : List (Nat × List Nat)) :
    Decidable (claimC5At mt text cands) := by
  unfold claimC5At; infer_instance

/-- `P` occurs exactly in `text` at offset `i`. -/
def occursAt (p text : List Nat) (i : Nat) : Prop :=
  i + p.length ≤ text.length ∧ (text.drop i).take p.length = p

instance (p text : List Nat) (i : Nat) : Decidable (occursAt p text i) := by
  unfold occursAt; infer_instance

/-! ### Seed search: `SmallSearcher`

From `src/seed_search.rs:32-152`, modelling the `avx2` code path (without
`avx2` the constructor always returns `Err` and no `SmallSearcher` exists)
at the byte level: 256-bit registers become per-byte computations over 32
lanes. -/

/-- `SeedMatch` (`src/seed_search.rs:374`). -/
structure SeedMatch where
  pattern_idx : Nat
  pattern_i : Nat
  text_i : Nat
  deriving DecidableEq, Repr

/-- The `k`-length windows of a pattern (`pattern.windows(K)`),
paired with their start offsets. -/
def windowsK (k : Nat) (p : List Nat) : List (Nat × List Nat) :=
  (List.range (p.length + 1 - k)).map fun i => (i, (p.drop i).take k)

/-- The nibble fed to position `i`'s lookup table
(`src/seed_search.rs:57`): even positions use the low 4 bits, odd positions
the low 4 bits after a right shift by 1 (`_mm256_srli_epi16` followed by the
`lo_4_mask` AND acts per byte the same way, since the mask discards the bit
borrowed from the neighbouring byte of the 16-bit lane). -/
def nibble (c i : Nat) : Nat := if i % 2 = 0 then c % 16 else (c / 2) % 16

/-- `pattern_luts[i].0[c + j*16] |= 1 << idx` for `j in 0..4`
(`src/seed_search.rs:59-61`). -/
def lutUpdate (lut : List Nat) (c idx : Nat) : List Nat :=
  (List.range 4).foldl
    (fun l j => l.set (c + j * 16) (l.getD (c + j * 16) 0 ||| (1 <<< idx))) lut

/-- Register one `k`-mer into the `K` position tables: position `i`'s
table gets bit `idx` ORed into the four copies of entry
`nibble (kmer[i]) i` (`src/seed_search.rs:56-62`). -/
def insertKmer (luts : List (List Nat)) (kmer : List Nat) (idx : Nat) : List (List Nat) :=
  (luts.zip (List.range luts.length)).map fun li =>
    lutUpdate li.1 (nibble (kmer.getD li.2 0) li.2) idx

structure SmallS where
  pattern_luts : List (List Nat)
  pattern_idxs : List (Nat × Nat)
  deriving DecidableEq, Repr

/-- `SmallSearcher::new` (`src/seed_search.rs:39-75`), `avx2` branch:
collect all `k`-mers of all literal patterns in order; `Err` (here `none`)
as soon as a ninth `k`-mer appears; otherwise build the `K` lookup tables
of 64 bytes each and the `(pattern_idx, pattern_i)` table indexed by
`k`-mer number. -/
def smallNew (k : Nat) (patterns : List (Nat × List Nat)) : Option SmallS :=
  let kmers : List (Nat × Nat × List Nat) :=
    patterns.flatMap fun pp => (windowsK k pp.2).map fun w => (pp.1, w.1, w.2)
  if kmers.length > 8 then none
  else
    some
      { pattern_luts :=
          ((kmers.zip (List.range kmers.length)).foldl
            (fun ls km => insertKmer ls km.1.2.2 km.2)
            (List.replicate k (List.replicate 64 0)))
        pattern_idxs := kmers.map fun km => (km.1, km.2.1) }

/-- The AND-folded lookup byte for one text position
(`src/seed_search.rs:88-113`): the accumulator `set` starts from
`_mm256_setzero_si256()` and is ANDed with each position table's
`pshufb` gather. -/
def setByte (s : SmallS) (k : Nat) (text : List Nat) (pos : Nat) : Nat :=
  (List.range k).foldl
    (fun acc j => acc &&& (s.pattern_luts.getD j []).getD (nibble (text.getD (pos + j) 0) j) 0)
    0

/-- Lowest set bit index; `fuel`-driven so the kernel can evaluate it
(only applied to 64-bit values, where 64 steps always suffice). -/
def ctzGo : Nat → Nat → Nat
  | _, 0 => 0
  | n, fuel + 1 => if n % 2 = 1 ∨ n = 0 then 0 else ctzGo (n / 2) fuel + 1

def ctz (n : Nat) : Nat := ctzGo n 64

/-- The candidate extraction of one 32-lane block
(`src/seed_search.rs:115-132`): lanes at distance `< len` survive the load
mask; a lane fires iff its byte is strictly positive as a signed `i8`
(`_mm256_cmpgt_epi8` against zero), and then nominates the `k`-mer named by
the byte's lowest set bit (`s.trailing_zeros()`). -/
def blockCands (s : SmallS) (k : Nat) (text : List Nat) (i len : Nat) : List SeedMatch :=
  (List.range 32).filterMap fun idx =>
    let b := setByte s k text (i + idx) &&& (if idx < len then 255 else 0)
    if 0 < b ∧ b < 128 then
      let pr := s.pattern_idxs.getD (ctz b) (0, 0)
      some ⟨pr.1, pr.2, i + idx⟩
    else none

/-- `SmallSearcher::search` (`src/seed_search.rs:77-152`): full 32-byte
blocks while `i + (K-1) + 32 ≤ |text|`, then one masked rest block when
`i + (K-1) < |text|`. -/
def smallSearch (s : SmallS) (k : Nat) (text : List Nat) : List SeedMatch :=
  let n := text.length
  let q := (n + 1 - k) / 32
  ((List.range q).flatMap fun b => blockCands s k text (b * 32) 32) ++
    (if q * 32 + (k - 1) < n then blockCands s k text (q * 32) (n - q * 32 - (k - 1)) else [])

/-! ### Seed search: `GeneralSearcher`

From `src/seed_search.rs:154-429`: the byte-wise `wyhash` mix, the rolling
hash emission loop of `get_hashes` (batches of 8), the fingerprint
`Filter` (the source's non-`avx2` scalar probe loop is modelled) and
`HashToPatternIdx::batch_lookup`, whose `while` loop gets an explicit fuel
so that non-termination is expressible as `none` for every fuel. -/

/-- `wyhash_byte` (`src/seed_search.rs:424-429`). -/
def wyhash_byte (b : Nat) : Nat :=
  let a := 0xa0761d6478bd642f
  let b' := b ^^^ 0xe7037ed1a0b428db
  let c := a * b'
  (c ^^^ (c >>> 64)) % 2 ^ 64

/-- `u64::rotate_left` for values `< 2 ^ 64`. -/
def rotl64 (x r : Nat) : Nat := ((x <<< (r % 64)) % 2 ^ 64) ||| (x >>> (64 - r % 64))

/-- The warm-up loop of `get_hashes` (`src/seed_search.rs:194-197`):
hash of the first `k` bytes. -/
def initHash (s : List Nat) (k : Nat) : Nat :=
  (List.range k).foldl (fun h i => rotl64 h 1 ^^^ wyhash_byte (s.getD i 0)) 0

/-- One rolling-hash step (`src/seed_search.rs:203-205`): byte `inB` enters,
byte `outB` (k back) leaves. -/
def nextHash (k h inB outB : Nat) : Nat :=
  rotl64 h 1 ^^^ wyhash_byte inB ^^^ rotl64 (wyhash_byte outB) k

/-- The emission sequence of `get_hashes` (`src/seed_search.rs:185-226`),
flattened: starting at `i = k` with the warm-up hash, emit the current hash
and step, while `i < |s|`; the `j`-th emission is the hash of the window at
`j`, and the window at `|s| - k` (the final one) is never emitted. -/
def emitGo (s : List Nat) (k : Nat) : Nat → Nat → Nat → List Nat
  | _, _, 0 => []
  | i, h, fuel + 1 => h :: emitGo s k (i + 1) (nextHash k h (s.getD i 0) (s.getD (i - k) 0)) fuel

def emitted (s : List Nat) (k : Nat) : List Nat :=
  if s.length < k then [] else emitGo s k k (initHash s k) (s.length - k)

/-- The batch grouping of `get_hashes`: groups of `B = 8` emissions, then
the remainder. -/
def chunksGo : Nat → List Nat → List (List Nat)
  | 0, _ => []
  | fuel + 1, l => if l = [] then [] else l.take 8 :: chunksGo fuel (l.drop 8)

def chunks8 (l : List Nat) : List (List Nat) := chunksGo l.length l

/-- The hash/pattern triples accumulated by `GeneralSearcher::new`
(`src/seed_search.rs:162-182`): for each pattern, `(hash, pattern_idx,
pattern_i + i)` — the stored position is the loop variable `i` (which runs
from `k`), not the window start. -/
def patternHashTriples (patterns : List (Nat × List Nat)) (k : Nat) :
    List (Nat × Nat × Nat) :=
  patterns.flatMap fun pp =>
    ((emitted pp.2 k).zip (List.range (emitted pp.2 k).length)).map fun hj =>
      (hj.1, pp.1, k + hj.2)

/-- `((h >> 49) << 1) | 1) as u16` (`src/seed_search.rs:338`). -/
def fingerprint (h : Nat) : Nat := (((h >>> 49) <<< 1) ||| 1) % 2 ^ 16

/-- Insertion sort, modelling `sort_unstable` on `u64`. -/
def sortedInsertNat (x : Nat) : List Nat → List Nat
  | [] => [x]
  | y :: ys => if x ≤ y then x :: y :: ys else y :: sortedInsertNat x ys

def sortNat (l : List Nat) : List Nat := l.foldr sortedInsertNat []

/-- `dedup` on a sorted list. -/
def dedupSorted : List Nat → List Nat
  | [] => []
  | [x] => [x]
  | x :: y :: r => if x = y then dedupSorted (y :: r) else x :: dedupSorted (y :: r)

/-- `usize::next_power_of_two` (`0` and `1` both give `1`). -/
def nextPow2 (n : Nat) : Nat := if n ≤ 1 then 1 else 2 ^ bitLen (n - 1)

structure Filter where
  hashes : List Nat
  len : Nat
  deriving DecidableEq, Repr

/-- The probe loop of `Filter::insert` (`src/seed_search.rs:325-339`):
scan upward from `idx` for a zero slot; `none` when the scan walks past the
end of the table (the source then silently `return`s without inserting).
`fuel` is called with `|tbl| + 1`, which the linear scan can never use up
before triggering one of the two exits. -/
def probeZero (tbl : List Nat) : Nat → Nat → Option Nat
  | _, 0 => none
  | idx, fuel + 1 =>
    if tbl.length ≤ idx then none
    else if tbl.getD idx 1 = 0 then some idx
    else probeZero tbl (idx + 1) fuel

def filterInsert (tbl : List Nat) (len h : Nat) : List Nat :=
  match probeZero tbl (h &&& (len - 1)) (tbl.length + 1) with
  | none => tbl
  | some p => tbl.set p (fingerprint h)

/-- `Filter::new` (`src/seed_search.rs:311-323`): sort, dedup, table of
`next_power_of_two(2n) + 32` slots, insert each hash. -/
def filterNew (full : List Nat) : Filter :=
  let fh := dedupSorted (sortNat full)
  let len := nextPow2 (fh.length * 2)
  { hashes := fh.foldl (fun t h => filterInsert t len h) (List.replicate (len + 32) 0), len }

/-- `Filter::contains` (`src/seed_search.rs:341-370`), scalar branch: probe
16 slots from `h & (len-1)`, build the match and zero masks, keep only
matches strictly before the first zero slot
(`(zero_mask & zero_mask.wrapping_neg()).wrapping_sub(1)`), and accept when
the window has no zero at all or a surviving match. -/
def filterContains (f : Filter) (h : Nat) : Bool :=
  let idx := h &&& (f.len - 1)
  let hh := fingerprint h
  let mm := (List.range 16).foldl
    (fun m i => if f.hashes.getD (idx + i) 0 = hh then m ||| (1 <<< i) else m) 0
  let zm := (List.range 16).foldl
    (fun m i => if f.hashes.getD (idx + i) 0 = 0 then m ||| (1 <<< i) else m) 0
  let fmm := ((zm &&& ((2 ^ 64 - zm) % 2 ^ 64)) + (2 ^ 64 - 1)) % 2 ^ 64
  zm = 0 || (mm &&& fmm) > 0

/-- `HashToPatternIdx` (`src/seed_search.rs:240-244`): the fingerprint
filter, the hash → `(start, end)` interval map (an association list models
the `FxHashMap`) and the flat `(pattern_idx, pattern_i)` table. -/
structure HPI where
  filter : Filter
  map : List (Nat × Nat × Nat)
  pattern_idxs : List (Nat × Nat)
  deriving DecidableEq, Repr

/-- Lexicographic insertion sort on `(hash, pattern_idx, pattern_i)`,
modelling `sort_unstable` on the tuples. -/
def leTriple (a b : Nat × Nat × Nat) : Bool :=
  a.1 < b.1 || (a.1 = b.1 && (a.2.1 < b.2.1 || (a.2.1 = b.2.1 && a.2.2 ≤ b.2.2)))

def sortedInsertTriple (x : Nat × Nat × Nat) : List (Nat × Nat × Nat) → List (Nat × Nat × Nat)
  | [] => [x]
  | y :: ys => if leTriple x y then x :: y :: ys else y :: sortedInsertTriple x ys

def sortTriples (l : List (Nat × Nat × Nat)) : List (Nat × Nat × Nat) :=
  l.foldr sortedInsertTriple []

/-- `map.entry(hash).or_insert((i, i)).1 += 1` over the sorted triples
(`src/seed_search.rs:253-255`). -/
def mapBump : List (Nat × Nat × Nat) → Nat → Nat → List (Nat × Nat × Nat)
  | [], h, i => [(h, i, i + 1)]
  | (h', s, e) :: r, h, i =>
    if h' = h then (h', s, e + 1) :: r else (h', s, e) :: mapBump r h i

def buildMap (sorted : List (Nat × Nat × Nat)) : List (Nat × Nat × Nat) :=
  (sorted.zip (List.range sorted.length)).foldl (fun m te => mapBump m te.1.1 te.2) []

/-- `HashToPatternIdx::new` (`src/seed_search.rs:247-265`). -/
def hpiNew (hash_pattern_idxs : List (Nat × Nat × Nat)) : HPI :=
  let sorted := sortTriples hash_pattern_idxs
  { filter := filterNew (sorted.map Prod.fst)
    map := buildMap sorted
    pattern_idxs := sorted.map fun t => (t.2.1, t.2.2) }

def mapGet (m : List (Nat × Nat × Nat)) (h : Nat) : Option (Nat × Nat) :=
  (m.find? fun t => t.1 == h).map Prod.snd

/-- The `while contains > 0` loop of `HashToPatternIdx::batch_lookup`
(`src/seed_search.rs:285-301`) with explicit fuel.  When the map lookup
fails, the source's `else { continue }` re-enters the loop *without*
clearing the bit, so the model recurses on the unchanged mask. -/
def lookupGo (t : HPI) (hashes : List Nat) (base : Nat) : Nat → Nat → Option (List SeedMatch)
  | _, 0 => none
  | contains, fuel + 1 =>
    if contains = 0 then some []
    else
      let i := ctz contains
      match mapGet t.map (hashes.getD i 0) with
      | none => lookupGo t hashes base contains fuel
      | some se =>
        (lookupGo t hashes base (contains &&& (contains - 1)) fuel).map fun rest =>
          (((t.pattern_idxs.drop se.1).take (se.2 - se.1)).map fun pr =>
            (⟨pr.1, pr.2, base + i⟩ : SeedMatch)) ++ rest

/-- `HashToPatternIdx::batch_lookup` (`src/seed_search.rs:267-303`): filter
all (up to 8, zero-padded) hashes, mask to the valid length, run the loop. -/
def batchLookup (t : HPI) (hashes : List Nat) (len base fuel : Nat) :
    Option (List SeedMatch) :=
  let cmask := (List.range 8).foldl
    (fun m i => if filterContains t.filter (hashes.getD i 0) then m ||| (1 <<< i) else m) 0
  lookupGo t hashes base (cmask &&& ((1 <<< len) - 1)) fuel

/-- `GeneralSearcher::search` (`src/seed_search.rs:229-238`): feed each
emission batch of the text through `batch_lookup`; the `b`-th batch's base
index is the loop variable `i = k + 8 b`.  `none` when some batch's loop
fails to terminate within `fuel`. -/
def generalSearchGo (t : HPI) (fuel : Nat) : List (List Nat) → Nat → Option (List SeedMatch)
  | [], _ => some []
  | c :: rest, base =>
    match batchLookup t c c.length base fuel with
    | none => none
    | some ms => (generalSearchGo t fuel rest (base + 8)).map fun more => ms ++ more

def generalSearch (t : HPI) (k : Nat) (text : List Nat) (fuel : Nat) :
    Option (List SeedMatch) :=
  generalSearchGo t fuel (chunks8 (emitted text k)) k

/-- `GeneralSearcher::new` (`src/seed_search.rs:162-182`). -/
def generalNew (patterns : List (Nat × List Nat)) (k : Nat) : HPI :=
  hpiNew (patternHashTriples patterns k)

/-! ### Spec-side definitions and claim instances -/

/-- Modelled from the spec: §4.2 `revcomp` — "Reverses the bytes, then in
non-quality mode applies the complement table (`A↔T`, `C↔G`)".  Used to
compare the specified semantics with the source's `RevCompNode::eval`. -/
def specRevCompDna (s : List Nat) : List Nat := s.reverse.map compDna

/-- `⌈log₂ n⌉`: `0` for `n ≤ 1`, else the bit length of `n - 1`. -/
def ceilLog2 (n : Nat) : Nat := if n ≤ 1 then 0 else bitLen (n - 1)

/-- The claimed suffix length `⌈log₂(n)/2⌉`.  For an integer divisor,
`⌈x/2⌉ = ⌈⌈x⌉/2⌉`, so the real-valued formula equals `⌈⌈log₂ n⌉/2⌉`. -/
def specCeilHalfLog2 (n : Nat) : Nat := (ceilLog2 n + 1) / 2

mutual

/-- `true` when the expression contains none of the panicking node kinds:
no division node, no byte-to-number conversion node, and no
`repeat`/`pad` node (whose `[u8]::repeat` panics with "capacity overflow"
when the count, after the `as usize` cast of a possibly negative `isize`,
makes the total size overflow). -/
def panicFree : Expr → Bool
  | .lit _ => true
  | .andE l r => panicFree l && panicFree r
  | .orE l r => panicFree l && panicFree r
  | .xorE l r => panicFree l && panicFree r
  | .notE e => panicFree e
  | .add l r => panicFree l && panicFree r
  | .sub l r => panicFree l && panicFree r
  | .mul l r => panicFree l && panicFree r
  | .div _ _ => false
  | .gt l r => panicFree l && panicFree r
  | .lt l r => panicFree l && panicFree r
  | .ge l r => panicFree l && panicFree r
  | .le l r => panicFree l && panicFree r
  | .eq l r => panicFree l && panicFree r
  | .len e => panicFree e
  | .rev e => panicFree e
  | .revcomp _ e => panicFree e
  | .intC _ => false
  | .bytesC e => panicFree e
  | .concat l r => panicFree l && panicFree r
  | .concatAll es => panicFreeList es
  | .repeatE _ _ => false
  | .padE _ _ _ _ => false
  | .slice s _ _ lo hi => panicFree s && panicFree lo && panicFree hi
  | .inBounds n _ _ lo hi => panicFree n && panicFree lo && panicFree hi
  | .normalize s _ _ lo hi => panicFree s && panicFree lo && panicFree hi

def panicFreeList : List Expr → Bool
  | [] => true
  | e :: r => panicFree e && panicFreeList r

end

/-- Loop invariant of `MatchAnyOp`'s verification loop, relating the state
to the list `L` of candidates processed so far. -/
def Inv (mt : MatchType) (text : List Nat) (L : List (Nat × List Nat)) (st : LoopState) :
    Prop :=
  st.maxMatches = maxOf ((passList mt text L).map Prod.snd) ∧
  (st.maxPattern = none → st.maxMatches = 0 ∧ st.maxPatternIdx = 2 ^ 64 - 1) ∧
  (∀ i, st.maxPattern = some i →
    st.maxPatternIdx = i ∧ (i, st.maxMatches) ∈ passList mt text L ∧ 0 < st.maxMatches) ∧
  (st.multimatches = true ↔
    ∃ q ∈ passList mt text L, q.2 = st.maxMatches ∧ q.1 ≠ st.maxPatternIdx)

/-- The `GeneralSearcher` built from the single literal pattern `"ACGT"`
with seed length 2. -/
def c6Table : HPI := generalNew [(0, [65, 67, 71, 84])] 2

/-- The `GeneralSearcher` built from the single literal pattern `"GAT"`
(bytes `[71, 65, 84]`) with seed length 2; its only stored 2-mer is `"GA"`. -/
def c10Table : HPI := generalNew [(0, [71, 65, 84])] 2

/-- A text whose first 2-mer (bytes `[70, 67]`) has the same filter index
bit and the same 15-bit fingerprint as the stored `"GA"` 2-mer, but a
different 64-bit hash. -/
def c10Text : List Nat := [70, 67, 84, 84]

def c10Hashes : List Nat := emitted c10Text 2

/-! ### Helper lemmas -/

theorem foldl_and_zero (f : Nat → Nat) (l : List Nat) :
    l.foldl (fun acc j => acc &&& f j) 0 = 0 := by
  induction l with
  | nil => rfl
  | cons a t ih => simpa using ih

theorem setByte_zero (s : SmallS) (k : Nat) (text : List Nat) (pos : Nat) :
    setByte s k text pos = 0 :=
  foldl_and_zero _ _

theorem blockCands_empty (s : SmallS) (k : Nat) (text : List Nat) (i len : Nat) :
    blockCands s k text i len = [] := by
  simp [blockCands, setByte_zero, Nat.zero_and]

theorem flatMap_nil {α β : Type} (l : List α) : (l.flatMap fun _ => ([] : List β)) = [] := by
  induction l with
  | nil => rfl
  | cons a t ih => simp [ih]

theorem smallSearch_empty (s : SmallS) (k : Nat) (text : List Nat) :
    smallSearch s k text = [] := by
  unfold smallSearch
  simp [blockCands_empty, flatMap_nil]

/-! ### Claim C1 -/

/-- C1.  The claim states that `revcomp` in non-quality mode reverses the
bytes and then complements them.  `RevCompNode::eval` complements every
byte through the table but never reverses: on input `"AC"` the evaluator
returns `"TG"`, while the claimed reverse-then-complement semantics
(`specRevCompDna`) gives `"GT"`.  (`RevNode` next to it does reverse; the
`.rev()` is simply missing from `RevCompNode`'s iterator chain.) -/
theorem c1_revcomp_does_not_reverse :
    eval (.revcomp false (.lit (.bytes [65, 67]))) false = .ok (.bytes [84, 71]) ∧
    specRevCompDna [65, 67] = [71, 84] ∧
    ([84, 71] : List Nat) ≠ [71, 84] := by
  refine ⟨by decide, by decide, by decide⟩

/-! ### Claim C2 -/

/-- C2.  The claim states the `SmallSearcher` nominates every exact
occurrence of an installed pattern.  In `SmallSearcher::search` the
accumulator `set` is initialized with `_mm256_setzero_si256()` and then
only ever ANDed (`src/seed_search.rs:90,112`), so it stays zero: the
searcher never invokes the candidate callback for any text.  The first
conjunct proves this for every searcher and text; the rest exhibits a
constructed searcher for the pattern `"AC"` and a text in which the
pattern occurs, where the search still nominates nothing. -/
theorem c2_small_searcher_never_nominates :
    (∀ (s : SmallS) (k : Nat) (text : List Nat), smallSearch s k text = []) ∧
    (smallNew 2 [(0, [65, 67])]).elim False
      (fun s => smallSearch s 2 [65, 67, 65, 67, 65, 67] = []) ∧
    occursAt [65, 67] [65, 67, 65, 67, 65, 67] 0 := by
  refine ⟨fun s k text => smallSearch_empty s k text, ?_, by decide⟩
  have h : smallNew 2 [(0, [65, 67])] = some
      { pattern_luts := (smallNew 2 [(0, [65, 67])]).elim [] SmallS.pattern_luts,
        pattern_idxs := [(0, 0)] } := by decide
  rw [h]
  exact smallSearch_empty _ _ _

/-! ### Claim C4 -/

/-- C4 counterexample.  The claim states that the `Exact` verifier accepts
exactly the patterns equal to a substring of the text at some offset.  The
pattern `"A"` occurs in the text `"AB"` at offset 0, but the `Exact` arm
(`src/graph/ops/match_any_op.rs:215-222`) compares the pattern with the
whole text and rejects it. -/
theorem c4_counterexample :
    verify .exact [65, 66] [65] = none ∧ occursAt [65] [65, 66] 0 := by
  refine ⟨by decide, by decide⟩

/-- C4 amended.  The `Exact` verifier accepts a pattern iff it equals the
whole text: it occurs at some offset *and* spans the full text (substring
matching at arbitrary offsets is `ExactSearch`'s job). -/
theorem c4_exact_accepts_whole_text (text p : List Nat) :
    (verify .exact text p).isSome = true ↔
      (∃ i, occursAt p text i) ∧ p.length = text.length := by
  constructor
  · intro h
    by_cases ht : text = p
    · subst ht
      exact ⟨⟨0, by simp [occursAt]⟩, rfl⟩
    · simp [verify, ht] at h
  · rintro ⟨⟨i, hi1, hi2⟩, hlen⟩
    have hi0 : i = 0 := by omega
    subst hi0
    simp only [List.drop_zero] at hi2
    have : text = p := by
      rw [← hi2, hlen, List.take_length]
    simp [verify, this]

/-! ### Claim C6 -/

/-- C6.  The claim states the `GeneralSearcher` nominates every exact
occurrence of a pattern seed `k`-mer, and that the fingerprint filter
answers `true` for every inserted hash.  The filter half is true (first
conjunct, over every hash inserted for this pattern set).  But the rolling
loop of `get_hashes` (`src/seed_search.rs:199-226`) emits only
`len - k` hashes — the final window of a string is never hashed — so the
occurrence of the pattern 2-mer `"AC"` at the last window (offset 4) of
`"TTTTAC"` is never even looked up: the search terminates with no
candidates at all. -/
theorem c6_general_searcher_misses_final_window :
    ((patternHashTriples [(0, [65, 67, 71, 84])] 2).all
      fun t => filterContains c6Table.filter t.1) = true ∧
    generalSearch c6Table 2 [84, 84, 84, 84, 65, 67] 8 = some [] ∧
    (0, [65, 67]) ∈ windowsK 2 [65, 67, 71, 84] ∧
    occursAt [65, 67] [84, 84, 84, 84, 65, 67] 4 := by
  refine ⟨by decide, by decide, by decide, by decide⟩

/-! ### Claim C8 -/

/-- C8 counterexample.  The claim computes `normalize("TTTTTT", 6..=8)` as
`"TTTTTTAAC"`, reading `NUC_MAP` as if digit 2 were `'C'`.  `NUC_MAP` is
`[b'A', b'C', b'T', b'G']` (`src/expr/expr_node.rs:12`), so digit 2 maps
to `'T'` and the evaluator returns `"TTTTTTAAT"`. -/
theorem c8_counterexample :
    eval (.normalize (.lit (.bytes [84, 84, 84, 84, 84, 84]))
        .included .included (.lit (.int 6)) (.lit (.int 8))) false
      = .ok (.bytes [84, 84, 84, 84, 84, 84, 65, 65, 84]) ∧
    ([84, 84, 84, 84, 84, 84, 65, 65, 84] : List Nat) ≠
      [84, 84, 84, 84, 84, 84, 65, 65, 67] := by
  refine ⟨by decide, by decide⟩

/-- C8 amended.  The output is the 9-byte string `"TTTTTTAAT"`: the input
right-padded with two `'A'`s, followed by one base-4 digit encoding the pad
count 2 through `NUC_MAP`, whose entry 2 is `'T'` (84). -/
theorem c8_normalize_tttttt :
    eval (.normalize (.lit (.bytes [84, 84, 84, 84, 84, 84]))
        .included .included (.lit (.int 6)) (.lit (.int 8))) false
      = .ok (.bytes ([84, 84, 84, 84, 84, 84] ++ [65, 65] ++ [NUC_MAP.getD 2 0])) ∧
    NUC_MAP.getD 2 0 = 84 := by
  refine ⟨by decide, by decide⟩

/-! ### Claim C3 -/

theorem bitLenGo_lt : ∀ (fuel m : Nat), m ≤ fuel → m < 2 ^ bitLenGo m fuel := by
  intro fuel
  induction fuel with
  | zero =>
    intro m hm
    have h0 : m = 0 := by omega
    subst h0
    simp [bitLenGo]
  | succ f ih =>
    intro m hm
    by_cases h0 : m = 0
    · subst h0; simp [bitLenGo]
    · have hrec := ih (m / 2) (by omega)
      simp only [bitLenGo, h0, if_false]
      rw [pow_succ]
      omega

theorem lt_two_pow_bitLen (n : Nat) : n < 2 ^ bitLen n := bitLenGo_lt n n le_rfl

/-- The padding count always fits in the appended base-4 digits:
`n - 1 < 4 ^ log4_roundup n`. -/
theorem sub_one_lt_pow4_log4 (n : Nat) : n - 1 < 4 ^ log4_roundup n := by
  have h1 : n < 2 ^ bitLen n := lt_two_pow_bitLen n
  have h2 : 2 ^ bitLen n ≤ 4 ^ log4_roundup n := by
    have h4 : (4 : Nat) ^ log4_roundup n = 2 ^ (2 * log4_roundup n) := by
      rw [show (4 : Nat) = 2 ^ 2 by norm_num, ← pow_mul]
    rw [h4]
    exact Nat.pow_le_pow_right (by norm_num) (by unfold log4_roundup; omega)
  omega

theorem nucDigits_length (k d : Nat) : (nucDigits k d).length = k := by
  induction k generalizing d with
  | zero => rfl
  | succ n ih => simp [nucDigits, ih]

theorem nucDigits_inj : ∀ (k d1 d2 : Nat), d1 < 4 ^ k → d2 < 4 ^ k →
    nucDigits k d1 = nucDigits k d2 → d1 = d2 := by
  intro k
  induction k with
  | zero =>
    intro d1 d2 h1 h2 _
    simp only [pow_zero] at h1 h2
    omega
  | succ n ih =>
    intro d1 d2 h1 h2 he
    simp only [nucDigits, List.cons.injEq] at he
    have hmod : d1 % 4 = d2 % 4 := by
      have h4 : ∀ a < 4, ∀ b < 4,
          NUC_MAP.getD a 0 = NUC_MAP.getD b 0 → a = b := by decide
      exact h4 _ (Nat.mod_lt _ (by norm_num)) _ (Nat.mod_lt _ (by norm_num)) he.1
    have hdiv : d1 / 4 = d2 / 4 := by
      refine ih _ _ ?_ ?_ he.2
      · have : d1 < 4 ^ n * 4 := by rw [← pow_succ]; exact h1
        omega
      · have : d2 < 4 ^ n * 4 := by rw [← pow_succ]; exact h2
        omega
    omega

theorem wrap64_eq (v : Int) (h1 : -(2 ^ 63) ≤ v) (h2 : v < 2 ^ 63) : wrap64 v = v := by
  unfold wrap64
  rw [Int.emod_eq_of_lt (by omega) (by omega)]
  omega

theorem usizeCast_eq (v : Int) (h1 : 0 ≤ v) (h2 : v < 2 ^ 64) : usizeCast v = v.toNat := by
  unfold usizeCast
  rw [Int.emod_eq_of_lt h1 h2]

/-- Evaluating a `normalize` node with included literal bounds reduces to
`normalizeCore`. -/
theorem eval_normalize_incl (s : List Nat) (m M : Int) :
    eval (.normalize (.lit (.bytes s)) .included .included (.lit (.int m)) (.lit (.int M)))
        false = normalizeCore s m M := rfl

/-- C3 counterexample.  The claim's output length is
`M + ⌈log₂(M - m + 1)/2⌉`.  For `s = "TTTTTT"`, `m = 6`, `M = 9` the span
is `M - m + 1 = 4`, so the claimed length is `9 + ⌈2/2⌉ = 10`; the code's
`log4_roundup` rounds the *bit length* (3 for the value 4) up to 2 digits
and produces an 11-byte output. -/
theorem c3_counterexample :
    eval (.normalize (.lit (.bytes [84, 84, 84, 84, 84, 84]))
        .included .included (.lit (.int 6)) (.lit (.int 9))) false
      = .ok (.bytes [84, 84, 84, 84, 84, 84, 65, 65, 65, 71, 65]) ∧
    ([84, 84, 84, 84, 84, 84, 65, 65, 65, 71, 65] : List Nat).length = 11 ∧
    9 + specCeilHalfLog2 (9 - 6 + 1) = 10 := by
  refine ⟨by decide, by decide, by decide⟩

/-- C3 amended.  For `isize`-representable bounds `m ≤ |s| ≤ M` (with the
span `M - m + 1` also representable), `normalize(s, [m, M])` evaluates to a
byte string of length exactly `M + log4_roundup (M - m + 1)` — that is,
`M + ⌈bitlen(M - m + 1)/2⌉`, not `M + ⌈log₂(M - m + 1)/2⌉` — the output is
a function of `(s, m, M)`, and two inputs of distinct lengths within
`[m, M]` produce distinct outputs. -/
theorem c3_normalize_length_injective (s t : List Nat) (m M : Int)
    (_hmlo : -(2 ^ 63) ≤ m) (hMhi : M < 2 ^ 63) (hspan : M - m + 1 < 2 ^ 63)
    (hsm : m ≤ (s.length : Int)) (hsM : (s.length : Int) ≤ M)
    (htm : m ≤ (t.length : Int)) (htM : (t.length : Int) ≤ M) :
    ∃ bs bt,
      eval (.normalize (.lit (.bytes s)) .included .included
        (.lit (.int m)) (.lit (.int M))) false = .ok (.bytes bs) ∧
      eval (.normalize (.lit (.bytes t)) .included .included
        (.lit (.int m)) (.lit (.int M))) false = .ok (.bytes bt) ∧
      bs.length = M.toNat + log4_roundup (M - m + 1).toNat ∧
      bt.length = M.toNat + log4_roundup (M - m + 1).toNat ∧
      (s.length ≠ t.length → bs ≠ bt) := by
  have hM0 : 0 ≤ M := le_trans (by positivity) hsM
  have hMlt64 : M < 2 ^ 64 := lt_trans hMhi (by norm_num)
  have hspan0 : 0 ≤ M - m + 1 := by omega
  have key : ∀ u : List Nat, m ≤ (u.length : Int) → (u.length : Int) ≤ M →
      normalizeCore u m M =
        .ok (.bytes (u ++ List.replicate (M.toNat - u.length) 65 ++
          nucDigits (log4_roundup (M - m + 1).toNat) (M.toNat - u.length))) := by
    intro u hum huM
    unfold normalizeCore
    rw [if_neg (by omega)]
    rw [wrap64_eq _ (by omega) (by omega)]
    rw [usizeCast_eq _ hM0 hMlt64, usizeCast_eq _ hspan0 (by omega)]
  have hsl : s.length ≤ M.toNat := by omega
  have htl : t.length ≤ M.toNat := by omega
  refine ⟨_, _, by rw [eval_normalize_incl, key s hsm hsM],
    by rw [eval_normalize_incl, key t htm htM], ?_, ?_, ?_⟩
  · simp [nucDigits_length]
    omega
  · simp [nucDigits_length]
    omega
  · intro hne heq
    -- equal outputs force equal digit suffixes, hence equal padding counts
    have hds : M.toNat - s.length < 4 ^ log4_roundup (M - m + 1).toNat := by
      have := sub_one_lt_pow4_log4 (M - m + 1).toNat
      omega
    have hdt : M.toNat - t.length < 4 ^ log4_roundup (M - m + 1).toNat := by
      have := sub_one_lt_pow4_log4 (M - m + 1).toNat
      omega
    have hsfx : nucDigits (log4_roundup (M - m + 1).toNat) (M.toNat - s.length) =
        nucDigits (log4_roundup (M - m + 1).toNat) (M.toNat - t.length) := by
      refine List.append_inj_right heq ?_
      simp
      omega
    have := nucDigits_inj _ _ _ hds hdt hsfx
    omega

/-- C3 witness: distinct-length inputs `"TTTTTT"` and `"TTTTT"` in the
range `[5, 9]`. -/
theorem c3_normalize_length_injective_witness :
    (-(2 ^ 63) ≤ (5 : Int)) ∧ ((9 : Int) < 2 ^ 63) ∧ ((9 : Int) - 5 + 1 < 2 ^ 63) ∧
    ((5 : Int) ≤ (([84, 84, 84, 84, 84, 84] : List Nat).length : Int)) ∧
    ((([84, 84, 84, 84, 84, 84] : List Nat).length : Int) ≤ 9) ∧
    ((5 : Int) ≤ (([84, 84, 84, 84, 84] : List Nat).length : Int)) ∧
    ((([84, 84, 84, 84, 84] : List Nat).length : Int) ≤ 9) ∧
    ∃ bs bt,
      eval (.normalize (.lit (.bytes [84, 84, 84, 84, 84, 84])) .included .included
        (.lit (.int 5)) (.lit (.int 9))) false = .ok (.bytes bs) ∧
      eval (.normalize (.lit (.bytes [84, 84, 84, 84, 84])) .included .included
        (.lit (.int 5)) (.lit (.int 9))) false = .ok (.bytes bt) ∧
      bs.length = (9 : Int).toNat + log4_roundup ((9 : Int) - 5 + 1).toNat ∧
      bt.length = (9 : Int).toNat + log4_roundup ((9 : Int) - 5 + 1).toNat ∧
      (([84, 84, 84, 84, 84, 84] : List Nat).length ≠
        ([84, 84, 84, 84, 84] : List Nat).length → bs ≠ bt) :=
  ⟨by decide, by decide, by decide, by decide, by decide, by decide, by decide,
    c3_normalize_length_injective [84, 84, 84, 84, 84, 84] [84, 84, 84, 84, 84] 5 9
      (by decide) (by decide) (by decide) (by decide) (by decide) (by decide) (by decide)⟩

/-! ### Claim C9 counterexample -/

/-- C9 counterexample.  The claim states evaluation never fails other than
by returning a typed error.  Dividing the int literal 1 by the int literal
0 reaches Rust's `l / r` (`src/expr/expr_node.rs:267`) with a zero divisor
and panics, and `repeat("AB", -1)` reaches `s.repeat(t as usize)`
(`src/expr/expr_node.rs:692`) with a count of `usize::MAX` and panics with
"capacity overflow" — neither is a value or a typed error. -/
theorem c9_counterexample :
    eval (.div (.lit (.int 1)) (.lit (.int 0))) false = .panic ∧
    eval (.repeatE (.lit (.bytes [65, 66])) (.lit (.int (-1)))) false = .panic ∧
    (∀ d, EvalResult.panic ≠ .ok d) ∧ (∀ e, EvalResult.panic ≠ .err e) := by
  refine ⟨by decide, by decide, fun d => by simp, fun e => by simp⟩

/-! ### Claim C7 -/

theorem compDna_invol (c : Nat) : compDna (compDna c) = c := by
  unfold compDna
  split_ifs <;> omega

/-- C7.  Evaluating `revcomp` twice over a byte string from `{A, C, G, T}`
returns the original string, and the transformation is a pointwise
involution on that alphabet.  (In the source `revcomp` only complements,
and the complement table is an involution on every byte, so the round trip
holds.) -/
theorem c7_revcomp_involution (s : List Nat)
    (_h : ∀ c ∈ s, c = 65 ∨ c = 67 ∨ c = 71 ∨ c = 84) :
    eval (.revcomp false (.revcomp false (.lit (.bytes s)))) false = .ok (.bytes s) ∧
    ∀ c ∈ s, compDna (compDna c) = c := by
  refine ⟨?_, fun c _ => compDna_invol c⟩
  have h1 : eval (.revcomp false (.revcomp false (.lit (.bytes s)))) false
      = .ok (.bytes ((s.map compDna).map compDna)) := rfl
  rw [h1, List.map_map]
  have h2 : (s.map (compDna ∘ compDna)) = s := by
    simp [Function.comp_def, compDna_invol]
  rw [h2]

/-- C7 witness at `s = "ACGT"`. -/
theorem c7_revcomp_involution_witness :
    (∀ c ∈ ([65, 67, 71, 84] : List Nat), c = 65 ∨ c = 67 ∨ c = 71 ∨ c = 84) ∧
    (eval (.revcomp false (.revcomp false (.lit (.bytes [65, 67, 71, 84])))) false
        = .ok (.bytes [65, 67, 71, 84]) ∧
      ∀ c ∈ ([65, 67, 71, 84] : List Nat), compDna (compDna c) = c) :=
  ⟨by decide, c7_revcomp_involution [65, 67, 71, 84] (by decide)⟩

/-! ### Claim C9 amended -/

theorem normalizeCore_ne_panic (s : List Nat) (a b : Int) :
    normalizeCore s a b ≠ .panic := by
  unfold normalizeCore
  split <;> simp

theorem ite_ok_err_ne_panic (c : Prop) [inst : Decidable c] (d : Data) (er : NameError) :
    (if c then EvalResult.ok d else .err er) ≠ .panic := by
  split <;> simp

theorem sliceCore_ne_panic (b : List Nat) (sD eD : Data) (f1 f2 : Bool) :
    sliceCore b sD eD f1 f2 ≠ .panic := by
  cases sD <;> cases eD <;> simp only [sliceCore] <;>
    first
    | exact ite_ok_err_ne_panic _ _ _
    | simp

/-- C9 amended.  Every node validates its operand shapes and reports a
typed `NameError` on a mismatch, and for expressions containing none of
the panicking node kinds — division, byte-to-number conversion, `repeat`
and `pad` — evaluation always returns a value or such a typed error.
Integer division (zero divisor or `isize::MIN / -1`), failing
byte-to-number conversions, and `repeat`/`pad` whose `as usize`-cast count
overflows the `[u8]::repeat` capacity all panic instead of returning an
error. -/
theorem c9_eval_no_panic_without_panic_nodes (e : Expr) :
    ∀ q : Bool, panicFree e = true → eval e q ≠ .panic := by
  induction e using Expr.rec
    (motive_2 := fun es => ∀ (q : Bool) (acc : List Nat),
      panicFreeList es = true → evalConcatAll es q acc ≠ .panic) with
  | lit d =>
    intro q h
    cases d <;> cases q <;> simp [eval]
  | andE l r ihl ihr =>
    intro q h
    simp only [panicFree, Bool.and_eq_true] at h
    cases hl : eval l q with
    | panic => exact absurd hl (ihl q h.1)
    | err er => simp [eval, hl]
    | ok dl =>
      cases hr : eval r q with
      | panic => exact absurd hr (ihr q h.2)
      | err er => simp [eval, hl, hr]
      | ok dr => cases dl <;> cases dr <;> simp [eval, hl, hr]
  | orE l r ihl ihr =>
    intro q h
    simp only [panicFree, Bool.and_eq_true] at h
    cases hl : eval l q with
    | panic => exact absurd hl (ihl q h.1)
    | err er => simp [eval, hl]
    | ok dl =>
      cases hr : eval r q with
      | panic => exact absurd hr (ihr q h.2)
      | err er => simp [eval, hl, hr]
      | ok dr => cases dl <;> cases dr <;> simp [eval, hl, hr]
  | xorE l r ihl ihr =>
    intro q h
    simp only [panicFree, Bool.and_eq_true] at h
    cases hl : eval l q with
    | panic => exact absurd hl (ihl q h.1)
    | err er => simp [eval, hl]
    | ok dl =>
      cases hr : eval r q with
      | panic => exact absurd hr (ihr q h.2)
      | err er => simp [eval, hl, hr]
      | ok dr => cases dl <;> cases dr <;> simp [eval, hl, hr]
  | notE e ih =>
    intro q h
    simp only [panicFree] at h
    cases he : eval e q with
    | panic => exact absurd he (ih q h)
    | err er => simp [eval, he]
    | ok d => cases d <;> simp [eval, he]
  | add l r ihl ihr =>
    intro q h
    simp only [panicFree, Bool.and_eq_true] at h
    cases hl : eval l q with
    | panic => exact absurd hl (ihl q h.1)
    | err er => simp [eval, hl]
    | ok dl =>
      cases hr : eval r q with
      | panic => exact absurd hr (ihr q h.2)
      | err er => simp [eval, hl, hr]
      | ok dr => cases dl <;> cases dr <;> simp [eval, hl, hr]
  | sub l r ihl ihr =>
    intro q h
    simp only [panicFree, Bool.and_eq_true] at h
    cases hl : eval l q with
    | panic => exact absurd hl (ihl q h.1)
    | err er => simp [eval, hl]
    | ok dl =>
      cases hr : eval r q with
      | panic => exact absurd hr (ihr q h.2)
      | err er => simp [eval, hl, hr]
      | ok dr => cases dl <;> cases dr <;> simp [eval, hl, hr]
  | mul l r ihl ihr =>
    intro q h
    simp only [panicFree, Bool.and_eq_true] at h
    cases hl : eval l q with
    | panic => exact absurd hl (ihl q h.1)
    | err er => simp [eval, hl]
    | ok dl =>
      cases hr : eval r q with
      | panic => exact absurd hr (ihr q h.2)
      | err er => simp [eval, hl, hr]
      | ok dr => cases dl <;> cases dr <;> simp [eval, hl, hr]
  | div l r =>
    intro q h
    simp [panicFree] at h
  | gt l r ihl ihr =>
    intro q h
    simp only [panicFree, Bool.and_eq_true] at h
    cases hl : eval l q with
    | panic => exact absurd hl (ihl q h.1)
    | err er => simp [eval, hl]
    | ok dl =>
      cases hr : eval r q with
      | panic => exact absurd hr (ihr q h.2)
      | err er => simp [eval, hl, hr]
      | ok dr => cases dl <;> cases dr <;> simp [eval, hl, hr]
  | lt l r ihl ihr =>
    intro q h
    simp only [panicFree, Bool.and_eq_true] at h
    cases hl : eval l q with
    | panic => exact absurd hl (ihl q h.1)
    | err er => simp [eval, hl]
    | ok dl =>
      cases hr : eval r q with
      | panic => exact absurd hr (ihr q h.2)
      | err er => simp [eval, hl, hr]
      | ok dr => cases dl <;> cases dr <;> simp [eval, hl, hr]
  | ge l r ihl ihr =>
    intro q h
    simp only [panicFree, Bool.and_eq_true] at h
    cases hl : eval l q with
    | panic => exact absurd hl (ihl q h.1)
    | err er => simp [eval, hl]
    | ok dl =>
      cases hr : eval r q with
      | panic => exact absurd hr (ihr q h.2)
      | err er => simp [eval, hl, hr]
      | ok dr => cases dl <;> cases dr <;> simp [eval, hl, hr]
  | le l r ihl ihr =>
    intro q h
    simp only [panicFree, Bool.and_eq_true] at h
    cases hl : eval l q with
    | panic => exact absurd hl (ihl q h.1)
    | err er => simp [eval, hl]
    | ok dl =>
      cases hr : eval r q with
      | panic => exact absurd hr (ihr q h.2)
      | err er => simp [eval, hl, hr]
      | ok dr => cases dl <;> cases dr <;> simp [eval, hl, hr]
  | eq l r ihl ihr =>
    intro q h
    simp only [panicFree, Bool.and_eq_true] at h
    cases hl : eval l q with
    | panic => exact absurd hl (ihl q h.1)
    | err er => simp [eval, hl]
    | ok dl =>
      cases hr : eval r q with
      | panic => exact absurd hr (ihr q h.2)
      | err er => simp [eval, hl, hr]
      | ok dr => cases dl <;> cases dr <;> simp [eval, hl, hr]
  | len e ih =>
    intro q h
    simp only [panicFree] at h
    cases he : eval e q with
    | panic => exact absurd he (ih q h)
    | err er => simp [eval, he]
    | ok d => cases d <;> simp [eval, he]
  | rev e ih =>
    intro q h
    simp only [panicFree] at h
    cases he : eval e q with
    | panic => exact absurd he (ih q h)
    | err er => simp [eval, he]
    | ok d => cases d <;> simp [eval, he]
  | revcomp isRna e ih =>
    intro q h
    simp only [panicFree] at h
    cases he : eval e q with
    | panic => exact absurd he (ih q h)
    | err er => simp [eval, he]
    | ok d => cases d <;> simp [eval, he]
  | intC e =>
    intro q h
    simp [panicFree] at h
  | bytesC e ih =>
    intro q h
    simp only [panicFree] at h
    cases he : eval e q with
    | panic => exact absurd he (ih q h)
    | err er => simp [eval, he]
    | ok d => cases d <;> simp [eval, he]
  | concat l r ihl ihr =>
    intro q h
    simp only [panicFree, Bool.and_eq_true] at h
    cases hl : eval l q with
    | panic => exact absurd hl (ihl q h.1)
    | err er => simp [eval, hl]
    | ok dl =>
      cases hr : eval r q with
      | panic => exact absurd hr (ihr q h.2)
      | err er => simp [eval, hl, hr]
      | ok dr => cases dl <;> cases dr <;> simp [eval, hl, hr]
  | concatAll es ih =>
    intro q h
    simp only [panicFree] at h
    simp only [eval]
    exact ih q [] h
  | repeatE s times ihs iht =>
    intro q h
    simp [panicFree] at h
  | padE s pad_char num endSide ihs ihpc ihn =>
    intro q h
    simp [panicFree] at h
  | slice s loK hiK lo hi ihs ihlo ihhi =>
    intro q h
    simp only [panicFree, Bool.and_eq_true] at h
    obtain ⟨⟨hs, hlo2⟩, hhi2⟩ := h
    cases hes : eval s q with
    | panic => exact absurd hes (ihs q hs)
    | err er => simp [eval, hes]
    | ok ds =>
      cases ds with
      | bool b => simp [eval, hes]
      | int i => simp [eval, hes]
      | bytes b =>
        cases loK with
        | unbounded =>
          cases hiK with
          | unbounded => simp [eval, hes, sliceCore_ne_panic]
          | included =>
            cases hehi : eval hi q with
            | panic => exact absurd hehi (ihhi q hhi2)
            | err er => simp [eval, hes, hehi]
            | ok dhi => simp [eval, hes, hehi, sliceCore_ne_panic]
          | excluded =>
            cases hehi : eval hi q with
            | panic => exact absurd hehi (ihhi q hhi2)
            | err er => simp [eval, hes, hehi]
            | ok dhi => simp [eval, hes, hehi, sliceCore_ne_panic]
        | included =>
          cases helo : eval lo q with
          | panic => exact absurd helo (ihlo q hlo2)
          | err er => simp [eval, hes, helo]
          | ok dlo =>
            cases hiK with
            | unbounded => simp [eval, hes, helo, sliceCore_ne_panic]
            | included =>
              cases hehi : eval hi q with
              | panic => exact absurd hehi (ihhi q hhi2)
              | err er => simp [eval, hes, helo, hehi]
              | ok dhi => simp [eval, hes, helo, hehi, sliceCore_ne_panic]
            | excluded =>
              cases hehi : eval hi q with
              | panic => exact absurd hehi (ihhi q hhi2)
              | err er => simp [eval, hes, helo, hehi]
              | ok dhi => simp [eval, hes, helo, hehi, sliceCore_ne_panic]
        | excluded =>
          cases helo : eval lo q with
          | panic => exact absurd helo (ihlo q hlo2)
          | err er => simp [eval, hes, helo]
          | ok dlo =>
            cases hiK with
            | unbounded => simp [eval, hes, helo, sliceCore_ne_panic]
            | included =>
              cases hehi : eval hi q with
              | panic => exact absurd hehi (ihhi q hhi2)
              | err er => simp [eval, hes, helo, hehi]
              | ok dhi => simp [eval, hes, helo, hehi, sliceCore_ne_panic]
            | excluded =>
              cases hehi : eval hi q with
              | panic => exact absurd hehi (ihhi q hhi2)
              | err er => simp [eval, hes, helo, hehi]
              | ok dhi => simp [eval, hes, helo, hehi, sliceCore_ne_panic]
  | inBounds num loK hiK lo hi ihn ihlo ihhi =>
    intro q h
    simp only [panicFree, Bool.and_eq_true] at h
    obtain ⟨⟨hn, hlo2⟩, hhi2⟩ := h
    cases hen : eval num q with
    | panic => exact absurd hen (ihn q hn)
    | err er => simp [eval, hen]
    | ok dn =>
      cases loK with
      | unbounded =>
        cases hiK with
        | unbounded => cases dn <;> simp [eval, hen]
        | included =>
          cases hehi : eval hi q with
          | panic => exact absurd hehi (ihhi q hhi2)
          | err er => simp [eval, hen, hehi]
          | ok dhi => cases dn <;> cases dhi <;> simp [eval, hen, hehi]
        | excluded =>
          cases hehi : eval hi q with
          | panic => exact absurd hehi (ihhi q hhi2)
          | err er => simp [eval, hen, hehi]
          | ok dhi => cases dn <;> cases dhi <;> simp [eval, hen, hehi]
      | included =>
        cases helo : eval lo q with
        | panic => exact absurd helo (ihlo q hlo2)
        | err er => simp [eval, hen, helo]
        | ok dlo =>
          cases hiK with
          | unbounded => cases dn <;> cases dlo <;> simp [eval, hen, helo]
          | included =>
            cases hehi : eval hi q with
            | panic => exact absurd hehi (ihhi q hhi2)
            | err er => simp [eval, hen, helo, hehi]
            | ok dhi => cases dn <;> cases dlo <;> cases dhi <;> simp [eval, hen, helo, hehi]
          | excluded =>
            cases hehi : eval hi q with
            | panic => exact absurd hehi (ihhi q hhi2)
            | err er => simp [eval, hen, helo, hehi]
            | ok dhi => cases dn <;> cases dlo <;> cases dhi <;> simp [eval, hen, helo, hehi]
      | excluded =>
        cases helo : eval lo q with
        | panic => exact absurd helo (ihlo q hlo2)
        | err er => simp [eval, hen, helo]
        | ok dlo =>
          cases hiK with
          | unbounded => cases dn <;> cases dlo <;> simp [eval, hen, helo]
          | included =>
            cases hehi : eval hi q with
            | panic => exact absurd hehi (ihhi q hhi2)
            | err er => simp [eval, hen, helo, hehi]
            | ok dhi => cases dn <;> cases dlo <;> cases dhi <;> simp [eval, hen, helo, hehi]
          | excluded =>
            cases hehi : eval hi q with
            | panic => exact absurd hehi (ihhi q hhi2)
            | err er => simp [eval, hen, helo, hehi]
            | ok dhi => cases dn <;> cases dlo <;> cases dhi <;> simp [eval, hen, helo, hehi]
  | normalize s loK hiK lo hi ihs ihlo ihhi =>
    intro q h
    simp only [panicFree, Bool.and_eq_true] at h
    obtain ⟨⟨hs, hlo2⟩, hhi2⟩ := h
    cases hes : eval s q with
    | panic => exact absurd hes (ihs q hs)
    | err er => simp [eval, hes]
    | ok ds =>
      cases ds with
      | bool b => simp [eval, hes]
      | int i => simp [eval, hes]
      | bytes bs =>
        cases loK with
        | unbounded => simp [eval, hes]
        | included =>
          cases helo : eval lo q with
          | panic => exact absurd helo (ihlo q hlo2)
          | err er => simp [eval, hes, helo]
          | ok dlo =>
            cases hiK with
            | unbounded => simp [eval, hes, helo]
            | included =>
              cases hehi : eval hi q with
              | panic => exact absurd hehi (ihhi q hhi2)
              | err er => simp [eval, hes, helo, hehi]
              | ok dhi =>
                cases dlo <;> cases dhi <;>
                  simp [eval, hes, helo, hehi, normalizeCore_ne_panic]
            | excluded =>
              cases hehi : eval hi q with
              | panic => exact absurd hehi (ihhi q hhi2)
              | err er => simp [eval, hes, helo, hehi]
              | ok dhi =>
                cases dlo <;> cases dhi <;>
                  simp [eval, hes, helo, hehi, normalizeCore_ne_panic]
        | excluded =>
          cases helo : eval lo q with
          | panic => exact absurd helo (ihlo q hlo2)
          | err er => simp [eval, hes, helo]
          | ok dlo =>
            cases hiK with
            | unbounded => simp [eval, hes, helo]
            | included =>
              cases hehi : eval hi q with
              | panic => exact absurd hehi (ihhi q hhi2)
              | err er => simp [eval, hes, helo, hehi]
              | ok dhi =>
                cases dlo <;> cases dhi <;>
                  simp [eval, hes, helo, hehi, normalizeCore_ne_panic]
            | excluded =>
              cases hehi : eval hi q with
              | panic => exact absurd hehi (ihhi q hhi2)
              | err er => simp [eval, hes, helo, hehi]
              | ok dhi =>
                cases dlo <;> cases dhi <;>
                  simp [eval, hes, helo, hehi, normalizeCore_ne_panic]
  | nil =>
    rename_i q acc h
    simp [evalConcatAll]
  | cons head tail ih1 ih2 =>
    rename_i q acc h
    simp only [panicFreeList, Bool.and_eq_true] at h
    cases he : eval head q with
    | panic => exact absurd he (ih1 q h.1)
    | err er => simp [evalConcatAll, he]
    | ok d =>
      cases d with
      | bool b => simp [evalConcatAll, he]
      | int i => simp [evalConcatAll, he]
      | bytes b =>
        simp only [evalConcatAll, he]
        exact ih2 q (acc ++ b) h.2


/-! ### Claim C5 -/

theorem hamming_le {a b : List Nat} {t m : Nat} (h : hamming a b t = some m) :
    m ≤ b.length := by
  unfold hamming at h
  by_cases hl : a.length ≠ b.length
  · simp [hl] at h
  · rw [if_neg (by simpa using hl)] at h
    push_neg at hl
    replace h : (if a.length - mismatchCount a b ≥ t then
        some (a.length - mismatchCount a b) else none) = some m := h
    split at h
    · injection h with h'
      omega
    · cases h

theorem verify_le {mt : MatchType} {text p : List Nat} {m c1 c2 : Nat}
    (h : verify mt text p = some (m, c1, c2)) : m ≤ p.length := by
  cases mt with
  | exact =>
    simp only [verify] at h
    split at h
    · simp at h; omega
    · cases h
  | exactPre =>
    simp only [verify] at h
    split at h
    · simp at h; omega
    · cases h
  | exactSuf =>
    simp only [verify] at h
    split at h
    · simp at h; omega
    · cases h
  | exactSearch =>
    simp only [verify] at h
    rw [Option.map_eq_some'] at h
    obtain ⟨i, _, hfi⟩ := h
    simp at hfi
    omega
  | hamming t =>
    simp only [verify] at h
    rw [Option.map_eq_some'] at h
    obtain ⟨mm, hmm, hfi⟩ := h
    simp at hfi
    have := hamming_le hmm
    omega

theorem le_maxOf {l : List Nat} {a : Nat} (h : a ∈ l) : a ≤ maxOf l := by
  induction l with
  | nil => cases h
  | cons b t ih =>
    rcases List.mem_cons.mp h with h' | h'
    · subst h'; simp [maxOf]
    · have := ih h'
      simp only [maxOf, List.foldr_cons] at *
      omega

theorem foldr_max_init (l : List Nat) (c : Nat) :
    l.foldr max c = max (l.foldr max 0) c := by
  induction l with
  | nil => simp
  | cons b t ih => simp only [List.foldr_cons]; omega

theorem maxOf_append_one (l : List Nat) (x : Nat) : maxOf (l ++ [x]) = max (maxOf l) x := by
  simp only [maxOf, List.foldr_append, List.foldr_cons, List.foldr_nil]
  rw [foldr_max_init]
  omega

theorem passList_append (mt : MatchType) (text : List Nat) (L1 L2 : List (Nat × List Nat)) :
    passList mt text (L1 ++ L2) = passList mt text L1 ++ passList mt text L2 := by
  simp [passList]

theorem passList_single (mt : MatchType) (text : List Nat) (c : Nat × List Nat) :
    passList mt text [c] =
      match verify mt text c.2 with
      | none => []
      | some r => [(c.1, r.1)] := by
  cases hv : verify mt text c.2 <;> simp [passList, hv]

theorem Inv_nil (mt : MatchType) (text : List Nat) : Inv mt text [] initState := by
  refine ⟨rfl, fun _ => ⟨rfl, rfl⟩, ?_, ?_⟩
  · intro i h
    exact absurd h (by simp [initState])
  · constructor
    · intro h
      exact absurd h (by simp [initState])
    · rintro ⟨q, hq, _⟩
      exact absurd hq (List.not_mem_nil q)

theorem Inv_step (mt : MatchType) (text : List Nat) (L : List (Nat × List Nat))
    (c : Nat × List Nat) (st : LoopState) (h : Inv mt text L st) :
    Inv mt text (L ++ [c]) (loopStep mt text st c) := by
  obtain ⟨I1, I2, I3, I4⟩ := h
  unfold loopStep
  by_cases hskip : st.maxMatches > c.2.length
  · rw [if_pos hskip]
    cases hv : verify mt text c.2 with
    | none =>
      have hps : passList mt text (L ++ [c]) = passList mt text L := by
        rw [passList_append, passList_single, hv]
        simp
      exact ⟨by rw [hps]; exact I1, I2, by rw [hps]; exact I3, by rw [hps]; exact I4⟩
    | some r =>
      obtain ⟨m, c1, c2⟩ := r
      have hm : m ≤ c.2.length := verify_le hv
      have hps : passList mt text (L ++ [c]) = passList mt text L ++ [(c.1, m)] := by
        rw [passList_append, passList_single, hv]
      refine ⟨?_, I2, ?_, ?_⟩
      · rw [hps, List.map_append,
          show ([(c.1, m)] : List (Nat × Nat)).map Prod.snd = [m] from rfl,
          maxOf_append_one]
        omega
      · intro i hi
        obtain ⟨ha, hb, hc⟩ := I3 i hi
        exact ⟨ha, by rw [hps]; exact List.mem_append_left _ hb, hc⟩
      · rw [hps, I4]
        constructor
        · rintro ⟨q, hq, hq2, hq1⟩
          exact ⟨q, List.mem_append_left _ hq, hq2, hq1⟩
        · rintro ⟨q, hq, hq2, hq1⟩
          rcases List.mem_append.mp hq with hq' | hq'
          · exact ⟨q, hq', hq2, hq1⟩
          · simp at hq'
            rw [hq'] at hq2
            simp at hq2
            omega
  · rw [if_neg hskip]
    push_neg at hskip
    cases hv : verify mt text c.2 with
    | none =>
      have hps : passList mt text (L ++ [c]) = passList mt text L := by
        rw [passList_append, passList_single, hv]
        simp
      exact ⟨by rw [hps]; exact I1, I2, by rw [hps]; exact I3, by rw [hps]; exact I4⟩
    | some r =>
      obtain ⟨m, c1, c2⟩ := r
      dsimp only
      have hps : passList mt text (L ++ [c]) = passList mt text L ++ [(c.1, m)] := by
        rw [passList_append, passList_single, hv]
      by_cases hgt : m > st.maxMatches
      · rw [if_pos hgt]
        refine ⟨?_, ?_, ?_, ?_⟩
        · dsimp only
          rw [hps, List.map_append,
            show ([(c.1, m)] : List (Nat × Nat)).map Prod.snd = [m] from rfl,
            maxOf_append_one, ← I1]
          omega
        · intro h2
          cases h2
        · intro i hi
          dsimp only at hi ⊢
          have hic : i = c.1 := (Option.some.inj hi).symm
          subst hic
          refine ⟨rfl, ?_, by omega⟩
          rw [hps]
          exact List.mem_append_right _ (List.mem_singleton.mpr rfl)
        · dsimp only
          constructor
          · intro hfalse
            cases hfalse
          · rintro ⟨q, hq, hq2, hq1⟩
            rw [hps] at hq
            rcases List.mem_append.mp hq with hq' | hq'
            · have hq2' : q.2 ≤ maxOf ((passList mt text L).map Prod.snd) :=
                le_maxOf (List.mem_map_of_mem Prod.snd hq')
              omega
            · simp at hq'
              rw [hq'] at hq1
              simp at hq1
      · rw [if_neg hgt]
        push_neg at hgt
        by_cases heq : m = st.maxMatches ∧ c.1 ≠ st.maxPatternIdx
        · rw [if_pos heq]
          obtain ⟨heq1, heq2⟩ := heq
          refine ⟨?_, ?_, ?_, ?_⟩
          · dsimp only
            rw [hps, List.map_append,
              show ([(c.1, m)] : List (Nat × Nat)).map Prod.snd = [m] from rfl,
              maxOf_append_one, ← I1]
            omega
          · intro h2
            exact I2 h2
          · intro i hi
            obtain ⟨ha, hb, hc⟩ := I3 i hi
            exact ⟨ha, by rw [hps]; exact List.mem_append_left _ hb, hc⟩
          · dsimp only
            constructor
            · intro _
              refine ⟨(c.1, m), ?_, by simpa using heq1, by simpa using heq2⟩
              rw [hps]
              exact List.mem_append_right _ (List.mem_singleton.mpr rfl)
            · intro _
              rfl
        · rw [if_neg heq]
          push_neg at heq
          refine ⟨?_, I2, ?_, ?_⟩
          · rw [hps, List.map_append,
              show ([(c.1, m)] : List (Nat × Nat)).map Prod.snd = [m] from rfl,
              maxOf_append_one]
            omega
          · intro i hi
            obtain ⟨ha, hb, hc⟩ := I3 i hi
            exact ⟨ha, by rw [hps]; exact List.mem_append_left _ hb, hc⟩
          · rw [hps, I4]
            constructor
            · rintro ⟨q, hq, hq2, hq1⟩
              exact ⟨q, List.mem_append_left _ hq, hq2, hq1⟩
            · rintro ⟨q, hq, hq2, hq1⟩
              rcases List.mem_append.mp hq with hq' | hq'
              · exact ⟨q, hq', hq2, hq1⟩
              · simp only [List.mem_singleton] at hq'
                rw [hq'] at hq2 hq1
                simp at hq2 hq1
                exact absurd (heq hq2) hq1

theorem Inv_run (mt : MatchType) (text : List Nat) :
    ∀ (cands L : List (Nat × List Nat)) (st : LoopState),
      Inv mt text L st → Inv mt text (L ++ cands) (cands.foldl (loopStep mt text) st) := by
  intro cands
  induction cands with
  | nil =>
    intro L st h
    simpa using h
  | cons cc cs ih =>
    intro L st h
    have h1 := Inv_step mt text L cc st h
    have h2 := ih (L ++ [cc]) _ h1
    simpa using h2

/-- C5 counterexample.  Under `ExactPrefix` both empty patterns pass their
verifier on the text `"AB"` with 0 matches.  Two distinct patterns achieve
the maximum matches-count (0), so the claim requires a written match and a
set multimatch flag, but `max_pattern` is never promoted from `None` (the
strict `matches > max_matches` comparison fails at 0), so nothing at all is
written to the read. -/
theorem c5_counterexample :
    ¬ claimC5At .exactPre [65, 66] [(0, []), (1, [])] := by
  decide

/-- C5 amended.  Whenever some candidate passes its verifier with a
*positive* matches-count, the verification loop writes a match achieving
the maximum matches-count over all passing candidates, and the multimatch
flag is set iff two distinct patterns both achieve that maximum.
(Candidates passing with 0 matches never produce a write; they can only
occur for empty patterns or thresholds that accept disjoint strings.) -/
theorem c5_best_match_and_multimatch (mt : MatchType) (text : List Nat)
    (cands : List (Nat × List Nat)) (hpos : 0 < bestOf mt text cands) :
    ∃ i, (runLoop mt text cands).maxPattern = some i ∧
      (i, bestOf mt text cands) ∈ passList mt text cands ∧
      (∀ q ∈ passList mt text cands, q.2 ≤ bestOf mt text cands) ∧
      ((runLoop mt text cands).multimatches = true ↔
        ∃ p ∈ passList mt text cands, ∃ q ∈ passList mt text cands,
          p.1 ≠ q.1 ∧ p.2 = bestOf mt text cands ∧ q.2 = bestOf mt text cands) := by
  have hinv : Inv mt text cands (runLoop mt text cands) := by
    have := Inv_run mt text cands [] initState (Inv_nil mt text)
    simpa [runLoop] using this
  obtain ⟨I1, I2, I3, I4⟩ := hinv
  have hbest : (runLoop mt text cands).maxMatches = bestOf mt text cands := I1
  have hsome : ∃ i, (runLoop mt text cands).maxPattern = some i := by
    cases hmp : (runLoop mt text cands).maxPattern with
    | none =>
      exfalso
      have h0 := (I2 hmp).1
      omega
    | some i => exact ⟨i, rfl⟩
  obtain ⟨i, hmp⟩ := hsome
  obtain ⟨hidx, hmem, _⟩ := I3 i hmp
  rw [hbest] at hmem
  rw [hbest, hidx] at I4
  refine ⟨i, hmp, hmem, ?_, ?_⟩
  · intro q hq
    exact le_maxOf (List.mem_map_of_mem Prod.snd hq)
  · rw [I4]
    constructor
    · rintro ⟨q, hq, hq2, hq1⟩
      exact ⟨q, hq, (i, bestOf mt text cands), hmem, hq1, hq2, rfl⟩
    · rintro ⟨p, hp, q, hq, hne, hp2, hq2⟩
      by_cases hpi : p.1 = i
      · exact ⟨q, hq, hq2, fun hh => hne (by rw [hpi, hh])⟩
      · exact ⟨p, hp, hp2, hpi⟩

/-- C5 witness: `Exact` matching of `"A"` against the patterns `"A"` and
`"B"`; the passing maximum is 1. -/
theorem c5_best_match_and_multimatch_witness :
    0 < bestOf .exact [65] [(0, [65]), (1, [66])] ∧
    (∃ i, (runLoop .exact [65] [(0, [65]), (1, [66])]).maxPattern = some i ∧
      (i, bestOf .exact [65] [(0, [65]), (1, [66])]) ∈
        passList .exact [65] [(0, [65]), (1, [66])] ∧
      (∀ q ∈ passList .exact [65] [(0, [65]), (1, [66])],
        q.2 ≤ bestOf .exact [65] [(0, [65]), (1, [66])]) ∧
      ((runLoop .exact [65] [(0, [65]), (1, [66])]).multimatches = true ↔
        ∃ p ∈ passList .exact [65] [(0, [65]), (1, [66])],
          ∃ q ∈ passList .exact [65] [(0, [65]), (1, [66])],
            p.1 ≠ q.1 ∧ p.2 = bestOf .exact [65] [(0, [65]), (1, [66])] ∧
              q.2 = bestOf .exact [65] [(0, [65]), (1, [66])])) :=
  ⟨by decide, c5_best_match_and_multimatch .exact [65] [(0, [65]), (1, [66])] (by decide)⟩

/-! ### Claim C10 -/

/-- At the stuck state the loop makes no progress: the lowest set bit names
the colliding hash, the map lookup fails, and the `continue` re-enters the
loop with the mask unchanged, so every amount of fuel is exhausted. -/
theorem c10_loop_stuck : ∀ fuel, lookupGo c10Table c10Hashes 2 1 fuel = none := by
  intro fuel
  induction fuel with
  | zero => rfl
  | succ f ih =>
    have hstep : lookupGo c10Table c10Hashes 2 1 (f + 1) =
        lookupGo c10Table c10Hashes 2 1 f := rfl
    rw [hstep]
    exact ih

/-- C10.  The claim states `batch_lookup` (hence `GeneralSearcher::search`)
terminates on every batch, including one containing a hash that passes the
fingerprint filter but is absent from the hash-to-interval map.  For the
pattern `"GAT"` (stored 2-mer `"GA"`) and the text starting with bytes
`[70, 67]` — whose first window hash collides with `"GA"`'s filter slot and
fingerprint but differs as a 64-bit hash — the filter answers `true`, the
map lookup fails, and the `else { continue }` loops forever: the search
returns no result for any amount of fuel. -/
theorem c10_batch_lookup_diverges :
    (∀ fuel, generalSearch c10Table 2 c10Text fuel = none) ∧
    filterContains c10Table.filter (c10Hashes.getD 0 0) = true ∧
    mapGet c10Table.map (c10Hashes.getD 0 0) = none := by
  refine ⟨?_, by decide, by decide⟩
  intro fuel
  have hch : chunks8 (emitted c10Text 2) = [c10Hashes] := by decide
  have hun : generalSearch c10Table 2 c10Text fuel
      = generalSearchGo c10Table fuel [c10Hashes] 2 := by
    unfold generalSearch
    rw [hch]
  rw [hun]
  show (match batchLookup c10Table c10Hashes c10Hashes.length 2 fuel with
        | none => none
        | some ms => (generalSearchGo c10Table fuel [] (2 + 8)).map fun more => ms ++ more)
      = none
  have hb : batchLookup c10Table c10Hashes c10Hashes.length 2 fuel
      = lookupGo c10Table c10Hashes 2 1 fuel := rfl
  rw [hb, c10_loop_stuck fuel]

/-- C9 witness: an expression free of the panicking node kinds evaluates
without panicking. -/
theorem c9_eval_no_panic_witness :
    panicFree (.concatAll [.bytesC (.add (.lit (.int 1)) (.lit (.int 2))),
      .lit (.bytes [65])]) = true ∧
    eval (.concatAll [.bytesC (.add (.lit (.int 1)) (.lit (.int 2))),
      .lit (.bytes [65])]) false ≠ .panic :=
  ⟨by decide, c9_eval_no_panic_without_panic_nodes
    (.concatAll [.bytesC (.add (.lit (.int 1)) (.lit (.int 2))), .lit (.bytes [65])])
    false (by decide)⟩

end Antiseq
